import Mathlib

set_option maxRecDepth 8000

/-!
Verification of the persistent RFID registry and card-presence logic of the
two Arduino sketches in this repository (the bare-UID variant
SimpleCardReadWrite.ino and the name-carrying variant).

The EEPROM is modelled as a total map from byte addresses to byte values;
EEPROM.update mirrors EEPROM.update of the Arduino library (functionally a
plain store, since writing an equal value is observationally the same).
Each C function of the sketches is translated to a Lean function of the same
name; loops become structural recursions or folds over List.range.
-/

/-- Byte-addressed persistent storage, a total map from addresses to values. -/
abbrev EEPROM := Nat → Nat

/-- Store one byte at one address. -/
def EEPROM.update (e : EEPROM) (a v : Nat) : EEPROM := fun x => if x = a then v else e x

/-- Completely blank storage, every byte zero. -/
def zeroE : EEPROM := fun _ => 0

namespace Bare

/-! Constants and storage layout of SimpleCardReadWrite.ino. -/

def MAX_CARDS : Nat := 40
def MAX_UID_LEN : Nat := 10
def ENTRY_SIZE : Nat := 1 + MAX_UID_LEN
def EEPROM_ADDR_COUNT : Nat := 0
def EEPROM_ADDR_START : Nat := 10

/-- countValid of the sketch: the stored count byte is in range. -/
def countValid (e : EEPROM) : Bool := decide (e EEPROM_ADDR_COUNT ≤ MAX_CARDS)

/-- writeCount of the sketch: clamp then store the count byte. -/
def writeCount (e : EEPROM) (v : Nat) : EEPROM :=
  EEPROM.update e EEPROM_ADDR_COUNT (if MAX_CARDS < v then MAX_CARDS else v)

/-- readCount of the sketch: an out-of-range stored count reads as zero. -/
def readCount (e : EEPROM) : Nat :=
  if MAX_CARDS < e EEPROM_ADDR_COUNT then 0 else e EEPROM_ADDR_COUNT

/-- entryAddress of the sketch: fixed-stride slot addressing. -/
def entryAddress (index : Nat) : Nat := EEPROM_ADDR_START + index * ENTRY_SIZE

/-- Body of the findIndex scan at one slot: equal stored length and equal bytes. -/
def matchAt (e : EEPROM) (uid : List Nat) (idx : Nat) : Bool :=
  if e (entryAddress idx) ≠ uid.length then false
  else (List.range (e (entryAddress idx))).all fun i =>
    e (entryAddress idx + 1 + i) == uid.getD i 0

/-- The findIndex loop, recursing on the number of remaining slots. -/
def findIndexGo (e : EEPROM) (uid : List Nat) : Nat → Nat → Option Nat
  | 0, _ => none
  | n + 1, idx => if matchAt e uid idx then some idx else findIndexGo e uid n (idx + 1)

/-- findIndex of the sketch; none models the C return value -1. -/
def findIndex (e : EEPROM) (uid : List Nat) : Option Nat :=
  findIndexGo e uid (readCount e) 0

/-- The UID byte store loop of addCard: the slot holds the UID zero-padded. -/
def writeUID (e : EEPROM) (addr : Nat) (uid : List Nat) : EEPROM :=
  (List.range MAX_UID_LEN).foldl
    (fun e i => EEPROM.update e (addr + 1 + i) (if i < uid.length then uid.getD i 0 else 0)) e

/-- addCard of the sketch. Returns the success flag and the new storage. -/
def addCard (e : EEPROM) (uid : List Nat) : Bool × EEPROM :=
  if uid.length = 0 then (false, e)
  else if MAX_CARDS ≤ readCount e then (false, e)
  else if (findIndex e uid).isSome then (false, e)
  else
    (true, writeCount
      (writeUID (EEPROM.update e (entryAddress (readCount e)) uid.length)
        (entryAddress (readCount e)) uid)
      (readCount e + 1))

/-- The inner byte copy of the removeCard shift loop. -/
def copyEntry (e : EEPROM) (src dst : Nat) : EEPROM :=
  (List.range ENTRY_SIZE).foldl (fun e b => EEPROM.update e (dst + b) (e (src + b))) e

/-- The slot-zeroing loop used by removeCard and clearAuthorizedList. -/
def zeroEntry (e : EEPROM) (addr : Nat) : EEPROM :=
  (List.range ENTRY_SIZE).foldl (fun e b => EEPROM.update e (addr + b) 0) e

/-- The shift loop of removeCard: m succeeding slots each move one slot down. -/
def shiftLoop (e : EEPROM) (idx m : Nat) : EEPROM :=
  (List.range m).foldl
    (fun e k => copyEntry e (entryAddress (idx + k + 1)) (entryAddress (idx + k))) e

/-- removeCard of the sketch. -/
def removeCard (e : EEPROM) (uid : List Nat) : Bool × EEPROM :=
  match findIndex e uid with
  | none => (false, e)
  | some idx =>
    (true, writeCount
      (zeroEntry (shiftLoop e idx (readCount e - 1 - idx)) (entryAddress (readCount e - 1)))
      (readCount e - 1))

/-- clearAuthorizedList of the sketch. -/
def clearAuthorizedList (e : EEPROM) : EEPROM :=
  writeCount ((List.range (readCount e)).foldl (fun e i => zeroEntry e (entryAddress i)) e) 0

/-- isAuthorized of the sketch. -/
def isAuthorized (e : EEPROM) (uid : List Nat) : Bool := (findIndex e uid).isSome

/-- The registry part of setup: heal a corrupt stored count. -/
def setupInit (e : EEPROM) : EEPROM := if countValid e then e else writeCount e 0

/-- The enumerate loop of printAuthorizedList: the rendered entries in slot order. -/
def printAuthorizedList (e : EEPROM) : List (List Nat) :=
  (List.range (readCount e)).map fun i =>
    (List.range (e (entryAddress i))).map fun j => e (entryAddress i + 1 + j)

/-- Sequence of addCard calls; returns the success flags in order and the final storage. -/
def runInserts (e : EEPROM) : List (List Nat) → List Bool × EEPROM
  | [] => ([], e)
  | u :: us =>
    ((addCard e u).1 :: (runInserts (addCard e u).2 us).1, (runInserts (addCard e u).2 us).2)

end Bare

namespace Named

/-! Constants and storage layout of the name-carrying variant. -/

def MAX_CARDS : Nat := 25
def MAX_UID_LEN : Nat := 10
def MAX_NAME_LEN : Nat := 20
def ENTRY_SIZE : Nat := 1 + MAX_UID_LEN + 1 + MAX_NAME_LEN
def EEPROM_ADDR_COUNT : Nat := 0
def EEPROM_ADDR_START : Nat := 10

def countValid (e : EEPROM) : Bool := decide (e EEPROM_ADDR_COUNT ≤ MAX_CARDS)

def writeCount (e : EEPROM) (v : Nat) : EEPROM :=
  EEPROM.update e EEPROM_ADDR_COUNT (if MAX_CARDS < v then MAX_CARDS else v)

def readCount (e : EEPROM) : Nat :=
  if MAX_CARDS < e EEPROM_ADDR_COUNT then 0 else e EEPROM_ADDR_COUNT

def entryAddress (index : Nat) : Nat := EEPROM_ADDR_START + index * ENTRY_SIZE

def matchAt (e : EEPROM) (uid : List Nat) (idx : Nat) : Bool :=
  if e (entryAddress idx) ≠ uid.length then false
  else (List.range (e (entryAddress idx))).all fun i =>
    e (entryAddress idx + 1 + i) == uid.getD i 0

def findIndexGo (e : EEPROM) (uid : List Nat) : Nat → Nat → Option Nat
  | 0, _ => none
  | n + 1, idx => if matchAt e uid idx then some idx else findIndexGo e uid n (idx + 1)

def findIndex (e : EEPROM) (uid : List Nat) : Option Nat :=
  findIndexGo e uid (readCount e) 0

def writeUID (e : EEPROM) (addr : Nat) (uid : List Nat) : EEPROM :=
  (List.range MAX_UID_LEN).foldl
    (fun e i => EEPROM.update e (addr + 1 + i) (if i < uid.length then uid.getD i 0 else 0)) e

/-- The label truncation of addCardWithName: substring to the maximum length. -/
def truncName (name : List Char) : List Char :=
  if MAX_NAME_LEN < name.length then name.take MAX_NAME_LEN else name

/-- The name byte store loop of addCardWithName: the label zero-padded. -/
def writeName (e : EEPROM) (addr : Nat) (name : List Char) : EEPROM :=
  (List.range MAX_NAME_LEN).foldl
    (fun e i => EEPROM.update e (addr + 1 + MAX_UID_LEN + 1 + i)
      (if i < name.length then (name.getD i 'A').toNat else 0)) e

/-- addCardWithName of the sketch; Arduino String values are char lists. -/
def addCardWithName (e : EEPROM) (uid : List Nat) (name : List Char) : Bool × EEPROM :=
  if uid.length = 0 then (false, e)
  else if MAX_CARDS ≤ readCount e then (false, e)
  else if (findIndex e uid).isSome then (false, e)
  else
    (true, writeCount
      (writeName
        (EEPROM.update
          (writeUID (EEPROM.update e (entryAddress (readCount e)) uid.length)
            (entryAddress (readCount e)) uid)
          (entryAddress (readCount e) + 1 + MAX_UID_LEN) (truncName name).length)
        (entryAddress (readCount e)) (truncName name))
      (readCount e + 1))

def copyEntry (e : EEPROM) (src dst : Nat) : EEPROM :=
  (List.range ENTRY_SIZE).foldl (fun e b => EEPROM.update e (dst + b) (e (src + b))) e

def zeroEntry (e : EEPROM) (addr : Nat) : EEPROM :=
  (List.range ENTRY_SIZE).foldl (fun e b => EEPROM.update e (addr + b) 0) e

def shiftLoop (e : EEPROM) (idx m : Nat) : EEPROM :=
  (List.range m).foldl
    (fun e k => copyEntry e (entryAddress (idx + k + 1)) (entryAddress (idx + k))) e

def removeCard (e : EEPROM) (uid : List Nat) : Bool × EEPROM :=
  match findIndex e uid with
  | none => (false, e)
  | some idx =>
    (true, writeCount
      (zeroEntry (shiftLoop e idx (readCount e - 1 - idx)) (entryAddress (readCount e - 1)))
      (readCount e - 1))

def clearAuthorizedList (e : EEPROM) : EEPROM :=
  writeCount ((List.range (readCount e)).foldl (fun e i => zeroEntry e (entryAddress i)) e) 0

def setupInit (e : EEPROM) : EEPROM := if countValid e then e else writeCount e 0

/-- readNameFromEEPROM of the sketch, with its NoName sentinel for a zero length. -/
def readNameFromEEPROM (e : EEPROM) (index : Nat) : List Char :=
  if e (entryAddress index + 1 + MAX_UID_LEN) = 0 then "NoName".toList
  else (List.range (e (entryAddress index + 1 + MAX_UID_LEN))).map fun i =>
    Char.ofNat (e (entryAddress index + 1 + MAX_UID_LEN + 1 + i))

/-- The enumerate loop of printAuthorizedList: UID bytes and rendered name per slot. -/
def printAuthorizedList (e : EEPROM) : List (List Nat × List Char) :=
  (List.range (readCount e)).map fun i =>
    ((List.range (e (entryAddress i))).map (fun j => e (entryAddress i + 1 + j)),
      readNameFromEEPROM e i)

/-- Sequence of addCardWithName calls, keeping only the storage. -/
def insertAll (e : EEPROM) (entries : List (List Nat × List Char)) : EEPROM :=
  entries.foldl (fun e p => (addCardWithName e p.1 p.2).2) e

/-- The discard loop run when the name length cap is hit: consume up to a newline. -/
def discardToNewline : List Char → List Char
  | [] => []
  | c :: cs => if c = '\n' then cs else discardToNewline cs

/-- The readLineFromSerial loop. The input list holds every character that
arrives within the timeout window; exhausting it without a terminator is the
timeout, which returns the empty string. The second component is what remains
in the serial buffer. -/
def readLineGo : List Char → List Char → List Char × List Char
  | _, [] => ([], [])
  | s, c :: cs =>
    if c = '\r' then readLineGo s cs
    else if c = '\n' then (s, cs)
    else if MAX_NAME_LEN ≤ (s ++ [c]).length then (s ++ [c], discardToNewline cs)
    else readLineGo (s ++ [c]) cs

/-- readLineFromSerial of the sketch, starting from an empty accumulator. -/
def readLineFromSerial (input : List Char) : List Char × List Char :=
  readLineGo [] input

/-- Arduino String.trim: strip whitespace at both ends. -/
def trim (s : List Char) : List Char :=
  ((s.dropWhile Char.isWhitespace).reverse.dropWhile Char.isWhitespace).reverse

/-- The add-command body inside waitWhileCardPresentAllowSerial: read a name
line, cancel on an empty trimmed name, otherwise insert. The flag records
whether an insert was attempted. -/
def handleAddCommand (e : EEPROM) (uid : List Nat) (line : List Char) : EEPROM × Bool :=
  if (trim (readLineFromSerial line).1).length = 0 then (e, false)
  else ((addCardWithName e uid (trim (readLineFromSerial line).1)).2, true)

end Named

/-! The presence controller removal logic, identical in both variants. -/

def REMOVAL_CHECKS : Nat := 6

/-- The controller state during the dwell loop: still present with a count of
consecutive failed polls, or judged removed. -/
inductive DwellState
  | present (c : Nat)
  | idle
deriving DecidableEq, Repr

/-- The presence portion of the dwell loop applied to a list of poll outcomes
(true = the reader saw the card). Mirrors the counter update and the break
condition of waitWhileCardPresentAllowSerial. -/
def dwellPolls : DwellState → List Bool → DwellState
  | .idle, _ => .idle
  | .present c, [] => .present c
  | .present c, p :: ps =>
    if p then dwellPolls (.present 0) ps
    else if REMOVAL_CHECKS < c + 1 then dwellPolls .idle ps
    else dwellPolls (.present (c + 1)) ps

/-- Representation predicate for the bare variant: the storage e holds exactly
the entry list l in slots 0 to count with the layout of the sketch. -/
def Bare.reps (e : EEPROM) (l : List (List Nat)) : Prop :=
  e Bare.EEPROM_ADDR_COUNT = l.length ∧ l.length ≤ Bare.MAX_CARDS ∧
  (∀ u ∈ l, u ≠ [] ∧ u.length ≤ Bare.MAX_UID_LEN) ∧
  (∀ i, i < l.length → e (Bare.entryAddress i) = (l.getD i []).length ∧
    ∀ j, j < (l.getD i []).length →
      e (Bare.entryAddress i + 1 + j) = (l.getD i []).getD j 0)

instance (e : EEPROM) (l : List (List Nat)) : Decidable (Bare.reps e l) := by
  unfold Bare.reps; infer_instance

/-- The registry invariants of the bare variant: some entry list is faithfully
stored (hence live entries are contiguous in slots 0 to count and the count is
at most the capacity) and no two live entries hold the same identifier. -/
def Bare.Inv (e : EEPROM) : Prop := ∃ l, Bare.reps e l ∧ l.Nodup

/-- Representation predicate for the name-carrying variant: storage holds the
(identifier, label) list l with the layout of the sketch. -/
def Named.reps (e : EEPROM) (l : List (List Nat × List Char)) : Prop :=
  e Named.EEPROM_ADDR_COUNT = l.length ∧ l.length ≤ Named.MAX_CARDS ∧
  (∀ p ∈ l, p.1 ≠ [] ∧ p.1.length ≤ Named.MAX_UID_LEN ∧ p.2.length ≤ Named.MAX_NAME_LEN) ∧
  (∀ i, i < l.length →
    e (Named.entryAddress i) = (l.getD i ([], [])).1.length ∧
    (∀ j, j < (l.getD i ([], [])).1.length →
      e (Named.entryAddress i + 1 + j) = (l.getD i ([], [])).1.getD j 0) ∧
    e (Named.entryAddress i + 1 + Named.MAX_UID_LEN) = (l.getD i ([], [])).2.length ∧
    (∀ j, j < (l.getD i ([], [])).2.length →
      e (Named.entryAddress i + 1 + Named.MAX_UID_LEN + 1 + j) =
        ((l.getD i ([], [])).2.getD j 'A').toNat))

instance (e : EEPROM) (l : List (List Nat × List Char)) : Decidable (Named.reps e l) := by
  unfold Named.reps; infer_instance

/-! Model of the full dwell loop state of the name-carrying variant, for the
frame property about the active identifier buffer. The reader state of the
MFRC522 driver (the uid field refreshed by PICC_ReadCardSerial) is kept
separately from the currentUID buffer of the sketch. -/

structure DwellSt where
  currentUID : List Nat
  readerUID : List Nat
  eeprom : EEPROM
  counter : Nat

structure DwellInput where
  ser : Option Char
  line : List Char
  poll : Option (List Nat)

/-- The serial command dispatch inside waitWhileCardPresentAllowSerial of the
name-carrying variant. Every registry command targets the currentUID buffer. -/
def serviceSerial (st : DwellSt) (ser : Option Char) (line : List Char) : DwellSt :=
  match ser with
  | none => st
  | some ch =>
    if ch = 'a' ∨ ch = 'A' then
      DwellSt.mk st.currentUID st.readerUID (Named.handleAddCommand st.eeprom st.currentUID line).1
        st.counter
    else if ch = 'r' ∨ ch = 'R' then
      DwellSt.mk st.currentUID st.readerUID (Named.removeCard st.eeprom st.currentUID).2 st.counter
    else if ch = 'p' ∨ ch = 'P' then st
    else if ch = 'c' ∨ ch = 'C' then
      DwellSt.mk st.currentUID st.readerUID (Named.clearAuthorizedList st.eeprom) st.counter
    else st

/-- One iteration of the dwell loop: service at most one serial command, then
poll presence. A successful poll stores the freshly read uid in the reader
state and resets the removal counter; a failed poll increments it. The flag
is true when the loop breaks (card judged removed). -/
def dwellIter (st : DwellSt) (inp : DwellInput) : DwellSt × Bool :=
  match inp.poll with
  | some ruid =>
    (DwellSt.mk (serviceSerial st inp.ser inp.line).currentUID ruid
      (serviceSerial st inp.ser inp.line).eeprom 0, false)
  | none =>
    (DwellSt.mk (serviceSerial st inp.ser inp.line).currentUID
      (serviceSerial st inp.ser inp.line).readerUID
      (serviceSerial st inp.ser inp.line).eeprom
      ((serviceSerial st inp.ser inp.line).counter + 1),
      decide (REMOVAL_CHECKS < (serviceSerial st inp.ser inp.line).counter + 1))

/-- The dwell loop run over a list of iteration inputs, stopping at a break. -/
def dwellRun (st : DwellSt) : List DwellInput → DwellSt
  | [] => st
  | inp :: rest =>
    if (dwellIter st inp).2 then (dwellIter st inp).1 else dwellRun (dwellIter st inp).1 rest

/-- The UID capture step of the main loop (both variants): the read size is
clamped to MAX_UID_LEN and that many bytes are copied into currentUID, so an
over-length identifier is silently truncated before any insert sees it. -/
def Named.captureUID (raw : List Nat) : List Nat :=
  (List.range (if Named.MAX_UID_LEN < raw.length then Named.MAX_UID_LEN else raw.length)).map
    fun i => raw.getD i 0

/-! Generic lemmas about stores and store loops. -/

theorem EEPROM.update_self (e : EEPROM) (a v : Nat) : e.update a v a = v := by
  simp [EEPROM.update]

theorem EEPROM.update_other (e : EEPROM) (a v x : Nat) (h : x ≠ a) : e.update a v x = e x := by
  simp [EEPROM.update, h]

/-- Frame rule for a fold of stores: an address written by no step is untouched. -/
theorem foldl_update_frame (g : Nat → Nat) (v : EEPROM → Nat → Nat) :
    ∀ (l : List Nat) (e : EEPROM) (a : Nat), (∀ x ∈ l, g x ≠ a) →
      (l.foldl (fun e x => EEPROM.update e (g x) (v e x)) e) a = e a := by
  intro l
  induction l with
  | nil => intro e a _; rfl
  | cons x xs ih =>
    intro e a h
    have h1 : g x ≠ a := h x (List.mem_cons_self x xs)
    have h2 : ∀ y ∈ xs, g y ≠ a := fun y hy => h y (List.mem_cons_of_mem x hy)
    simp only [List.foldl_cons]
    rw [ih _ a h2]
    exact EEPROM.update_other e (g x) (v e x) a (Ne.symm h1)

/-- Reading back a range of stores whose values do not depend on the state. -/
theorem foldl_writeRange_at (base : Nat) (w : Nat → Nat) :
    ∀ (n : Nat) (e : EEPROM) (j : Nat), j < n →
      ((List.range n).foldl (fun e i => EEPROM.update e (base + i) (w i)) e) (base + j) = w j := by
  intro n
  induction n with
  | zero => intro e j hj; omega
  | succ n ih =>
    intro e j hj
    rw [List.range_succ, List.foldl_append]
    simp only [List.foldl_cons, List.foldl_nil]
    by_cases hjn : j = n
    · subst hjn
      exact EEPROM.update_self _ _ _
    · rw [EEPROM.update_other _ _ _ _ (by omega)]
      exact ih e j (by omega)

/-- Reading back a block copy whose source block lies entirely above the target block. -/
theorem foldl_copy_at (dst d : Nat) :
    ∀ (n : Nat) (e : EEPROM) (b : Nat), b < n → dst + n ≤ d →
      ((List.range n).foldl (fun e b => EEPROM.update e (dst + b) (e (d + b))) e) (dst + b) =
        e (d + b) := by
  intro n
  induction n with
  | zero => intro e b hb _; omega
  | succ n ih =>
    intro e b hb hle
    rw [List.range_succ, List.foldl_append]
    simp only [List.foldl_cons, List.foldl_nil]
    by_cases hbn : b = n
    · subst hbn
      rw [EEPROM.update_self]
      apply foldl_update_frame
      intro x hx
      simp only [List.mem_range] at hx
      omega
    · rw [EEPROM.update_other _ _ _ _ (by omega)]
      exact ih e b (by omega) (by omega)

/-! Basic facts about the bare-variant layout helpers. -/

theorem Bare.entryAddress_eq (i : Nat) : entryAddress i = 10 + i * 11 := by
  unfold entryAddress ENTRY_SIZE MAX_UID_LEN EEPROM_ADDR_START
  omega

theorem Bare.readCount_le (e : EEPROM) : readCount e ≤ MAX_CARDS := by
  unfold readCount
  split <;> omega

theorem Bare.readCount_eq_of (e : EEPROM) (n : Nat) (h : e EEPROM_ADDR_COUNT = n)
    (hn : n ≤ MAX_CARDS) : readCount e = n := by
  unfold readCount
  rw [h, if_neg (by omega)]

theorem Bare.matchAt_iff (e : EEPROM) (uid : List Nat) (idx : Nat) :
    matchAt e uid idx = true ↔
      (e (entryAddress idx) = uid.length ∧
        ∀ j, j < uid.length → e (entryAddress idx + 1 + j) = uid.getD j 0) := by
  unfold matchAt
  by_cases h : e (entryAddress idx) = uid.length
  · rw [if_neg (not_not_intro h), h]
    simp only [List.all_eq_true, List.mem_range, beq_iff_eq, h, true_and]
  · rw [if_pos h]
    simp only [Bool.false_eq_true, false_iff, not_and]
    intro hc
    exact absurd hc h

theorem Bare.findIndexGo_none (e : EEPROM) (uid : List Nat) :
    ∀ (n idx : Nat), findIndexGo e uid n idx = none ↔
      ∀ k, idx ≤ k → k < idx + n → matchAt e uid k = false := by
  intro n
  induction n with
  | zero =>
    intro idx
    constructor
    · intro _ k h1 h2; omega
    · intro _; rfl
  | succ n ih =>
    intro idx
    by_cases hm : matchAt e uid idx = true
    · simp only [findIndexGo, hm, if_true]
      constructor
      · intro hnone; cases hnone
      · intro hall
        have h0 := hall idx (Nat.le_refl idx) (by omega)
        rw [hm] at h0
        cases h0
    · have hm' : matchAt e uid idx = false := by
        cases hmm : matchAt e uid idx
        · rfl
        · exact absurd hmm hm
      simp only [findIndexGo, hm', Bool.false_eq_true, if_false]
      constructor
      · intro hnone k h1 h2
        by_cases hk : k = idx
        · subst hk; exact hm'
        · exact ((ih (idx + 1)).1 hnone) k (by omega) (by omega)
      · intro hall
        exact (ih (idx + 1)).2 (fun k h1 h2 => hall k (by omega) (by omega))

theorem Bare.findIndexGo_some (e : EEPROM) (uid : List Nat) :
    ∀ (n idx j : Nat), findIndexGo e uid n idx = some j →
      idx ≤ j ∧ j < idx + n ∧ matchAt e uid j = true ∧
      ∀ k, idx ≤ k → k < j → matchAt e uid k = false := by
  intro n
  induction n with
  | zero => intro idx j h; cases h
  | succ n ih =>
    intro idx j h
    by_cases hm : matchAt e uid idx = true
    · simp only [findIndexGo, hm, if_true, Option.some.injEq] at h
      subst h
      exact ⟨Nat.le_refl idx, by omega, hm, fun k h1 h2 => by omega⟩
    · have hm' : matchAt e uid idx = false := by
        cases hmm : matchAt e uid idx
        · rfl
        · exact absurd hmm hm
      simp only [findIndexGo, hm', Bool.false_eq_true, if_false] at h
      obtain ⟨ha, hb, hc, hd⟩ := ih (idx + 1) j h
      refine ⟨by omega, by omega, hc, ?_⟩
      intro k h1 h2
      by_cases hk : k = idx
      · subst hk; exact hm'
      · exact hd k (by omega) h2

theorem Bare.reps_readCount (e : EEPROM) (l : List (List Nat)) (h : reps e l) :
    readCount e = l.length :=
  readCount_eq_of e l.length h.1 h.2.1

theorem Bare.matchAt_reps (e : EEPROM) (l : List (List Nat)) (uid : List Nat) (h : reps e l)
    (i : Nat) (hi : i < l.length) : matchAt e uid i = true ↔ l.getD i [] = uid := by
  obtain ⟨h0, hlen, hgood, hent⟩ := h
  obtain ⟨hL, hB⟩ := hent i hi
  rw [matchAt_iff]
  constructor
  · intro ⟨hlu, hbyte⟩
    have hll : (l.getD i []).length = uid.length := by rw [← hL, hlu]
    apply List.ext_getElem hll
    intro j hj1 hj2
    have e1 := hB j hj1
    have e2 := hbyte j hj2
    rw [e1] at e2
    rw [List.getD_eq_getElem _ 0 hj1, List.getD_eq_getElem _ 0 hj2] at e2
    exact e2
  · intro heq
    refine ⟨by rw [hL, heq], ?_⟩
    intro j hj
    rw [hB j (by rw [heq]; exact hj), heq]

theorem Bare.findIndex_none_iff (e : EEPROM) (l : List (List Nat)) (uid : List Nat)
    (h : reps e l) : findIndex e uid = none ↔ uid ∉ l := by
  rw [findIndex, reps_readCount e l h, findIndexGo_none]
  constructor
  · intro hall hmem
    obtain ⟨i, hi, hEq⟩ := List.getElem_of_mem hmem
    have hf := hall i (by omega) (by omega)
    have hEq2 : l.getD i [] = uid := by rw [List.getD_eq_getElem _ _ hi]; exact hEq
    have ht : matchAt e uid i = true := (matchAt_reps e l uid h i hi).2 hEq2
    rw [ht] at hf
    cases hf
  · intro hmem k h1 h2
    have hk : k < l.length := by omega
    cases hmm : matchAt e uid k
    · rfl
    · exfalso
      apply hmem
      have hvEq : l.getD k [] = uid := (matchAt_reps e l uid h k hk).1 hmm
      rw [← hvEq, List.getD_eq_getElem _ _ hk]
      exact List.getElem_mem hk

theorem Bare.findIndex_isSome_of_mem (e : EEPROM) (l : List (List Nat)) (uid : List Nat)
    (h : reps e l) (hmem : uid ∈ l) : (findIndex e uid).isSome = true := by
  rw [Option.isSome_iff_ne_none]
  intro hn
  exact ((findIndex_none_iff e l uid h).1 hn) hmem

theorem Bare.findIndex_some_spec (e : EEPROM) (l : List (List Nat)) (uid : List Nat) (idx : Nat)
    (h : reps e l) (hf : findIndex e uid = some idx) :
    idx < l.length ∧ l.getD idx [] = uid ∧ ∀ k, k < idx → l.getD k [] ≠ uid := by
  rw [findIndex, reps_readCount e l h] at hf
  obtain ⟨_, hb, hc, hd⟩ := findIndexGo_some e uid l.length 0 idx hf
  have hidx : idx < l.length := by omega
  refine ⟨hidx, (matchAt_reps e l uid h idx hidx).1 hc, ?_⟩
  intro k hk hcon
  have hfk := hd k (by omega) hk
  have hmt : matchAt e uid k = true := (matchAt_reps e l uid h k (by omega)).2 hcon
  rw [hmt] at hfk
  cases hfk

theorem Bare.findIndex_mem_of_some (e : EEPROM) (l : List (List Nat)) (uid : List Nat) (idx : Nat)
    (h : reps e l) (hf : findIndex e uid = some idx) : uid ∈ l := by
  obtain ⟨hidx, hEq, _⟩ := findIndex_some_spec e l uid idx h hf
  rw [← hEq, List.getD_eq_getElem _ _ hidx]
  exact List.getElem_mem hidx

/-! Read-after-write lemmas for the bare-variant store helpers. -/

theorem Bare.writeCount_same (e : EEPROM) (v : Nat) :
    writeCount e v EEPROM_ADDR_COUNT = if MAX_CARDS < v then MAX_CARDS else v :=
  EEPROM.update_self e EEPROM_ADDR_COUNT _

theorem Bare.writeCount_other (e : EEPROM) (v a : Nat) (h : a ≠ EEPROM_ADDR_COUNT) :
    writeCount e v a = e a :=
  EEPROM.update_other e EEPROM_ADDR_COUNT _ a h

theorem Bare.writeUID_at (e : EEPROM) (addr : Nat) (uid : List Nat) (j : Nat)
    (hj : j < MAX_UID_LEN) :
    writeUID e addr uid (addr + 1 + j) = if j < uid.length then uid.getD j 0 else 0 :=
  foldl_writeRange_at (addr + 1) (fun i => if i < uid.length then uid.getD i 0 else 0)
    MAX_UID_LEN e j hj

theorem Bare.writeUID_frame (e : EEPROM) (addr : Nat) (uid : List Nat) (a : Nat)
    (h : ∀ j, j < MAX_UID_LEN → addr + 1 + j ≠ a) : writeUID e addr uid a = e a := by
  apply foldl_update_frame
  intro x hx
  simp only [List.mem_range] at hx
  exact h x hx

theorem Bare.zeroEntry_at (e : EEPROM) (addr : Nat) (b : Nat) (hb : b < ENTRY_SIZE) :
    zeroEntry e addr (addr + b) = 0 :=
  foldl_writeRange_at addr (fun _ => 0) ENTRY_SIZE e b hb

theorem Bare.zeroEntry_frame (e : EEPROM) (addr : Nat) (a : Nat)
    (h : ∀ b, b < ENTRY_SIZE → addr + b ≠ a) : zeroEntry e addr a = e a := by
  apply foldl_update_frame
  intro x hx
  simp only [List.mem_range] at hx
  exact h x hx

theorem Bare.copyEntry_at (e : EEPROM) (src dst : Nat) (b : Nat) (hb : b < ENTRY_SIZE)
    (h : dst + ENTRY_SIZE ≤ src) : copyEntry e src dst (dst + b) = e (src + b) :=
  foldl_copy_at dst src ENTRY_SIZE e b hb h

theorem Bare.copyEntry_frame (e : EEPROM) (src dst : Nat) (a : Nat)
    (h : ∀ b, b < ENTRY_SIZE → dst + b ≠ a) : copyEntry e src dst a = e a := by
  apply foldl_update_frame
  intro x hx
  simp only [List.mem_range] at hx
  exact h x hx

/-! Correctness of addCard against the representation predicate. -/

theorem Bare.addCard_fail (e : EEPROM) (uid : List Nat)
    (h : uid.length = 0 ∨ MAX_CARDS ≤ readCount e ∨ (findIndex e uid).isSome = true) :
    addCard e uid = (false, e) := by
  unfold addCard
  by_cases h1 : uid.length = 0
  · rw [if_pos h1]
  · rw [if_neg h1]
    by_cases h2 : MAX_CARDS ≤ readCount e
    · rw [if_pos h2]
    · rw [if_neg h2]
      by_cases h3 : (findIndex e uid).isSome = true
      · rw [if_pos h3]
      · rcases h with h | h | h
        · exact absurd h h1
        · exact absurd h h2
        · exact absurd h h3


theorem Bare.addCard_success (e : EEPROM) (l : List (List Nat)) (uid : List Nat)
    (h : reps e l) (hne : uid ≠ []) (hlen : uid.length ≤ MAX_UID_LEN)
    (hmem : uid ∉ l) (hfull : l.length < MAX_CARDS) :
    (addCard e uid).1 = true ∧ reps (addCard e uid).2 (l ++ [uid]) := by
  have hcount := reps_readCount e l h
  have hfi : findIndex e uid = none := (findIndex_none_iff e l uid h).2 hmem
  have hMC : MAX_CARDS = 40 := rfl
  have hML : MAX_UID_LEN = 10 := rfl
  have hES : ENTRY_SIZE = 11 := rfl
  have hC0 : EEPROM_ADDR_COUNT = 0 := rfl
  have ha2 := entryAddress_eq l.length
  have hstate : addCard e uid =
      (true, writeCount (writeUID (EEPROM.update e (entryAddress l.length) uid.length)
        (entryAddress l.length) uid) (l.length + 1)) := by
    unfold addCard
    rw [hcount, hfi]
    rw [if_neg (fun hc => hne (List.length_eq_zero.1 hc)), if_neg (by omega), if_neg (by simp)]
  rw [hstate]
  refine ⟨rfl, ?_⟩
  show reps (writeCount (writeUID (EEPROM.update e (entryAddress l.length) uid.length)
    (entryAddress l.length) uid) (l.length + 1)) (l ++ [uid])
  have hframe : ∀ (i b : Nat), i < l.length → b < ENTRY_SIZE →
      writeCount (writeUID (EEPROM.update e (entryAddress l.length) uid.length)
        (entryAddress l.length) uid) (l.length + 1) (entryAddress i + b) =
      e (entryAddress i + b) := by
    intro i b hil hb
    have ha1 := entryAddress_eq i
    rw [writeCount_other _ _ _ (by omega)]
    rw [writeUID_frame _ _ _ _ (by intro j hj; omega)]
    exact EEPROM.update_other _ _ _ _ (by omega)
  refine ⟨?_, ?_, ?_, ?_⟩
  · rw [writeCount_same, if_neg (by omega)]
    simp
  · simp only [List.length_append, List.length_singleton]
    omega
  · intro u hu
    rcases List.mem_append.1 hu with hl | hr
    · exact h.2.2.1 u hl
    · rw [List.mem_singleton.1 hr]
      exact ⟨hne, hlen⟩
  · intro i hi
    simp only [List.length_append, List.length_singleton] at hi
    by_cases hil : i < l.length
    · obtain ⟨hL, hB⟩ := h.2.2.2 i hil
      have hgi : (l.getD i []).length ≤ MAX_UID_LEN := by
        have hmem2 : l.getD i [] ∈ l := by
          rw [List.getD_eq_getElem _ _ hil]
          exact List.getElem_mem hil
        exact (h.2.2.1 _ hmem2).2
      rw [List.getD_append _ _ _ _ hil]
      constructor
      · have hf0 := hframe i 0 hil (by omega)
        simp only [Nat.add_zero] at hf0
        rw [hf0, hL]
      · intro j hj
        have hf1 := hframe i (1 + j) hil (by omega)
        rw [show entryAddress i + (1 + j) = entryAddress i + 1 + j by omega] at hf1
        rw [hf1]
        exact hB j hj
    · have hieq : i = l.length := by omega
      subst hieq
      have hget : (l ++ [uid]).getD l.length [] = uid := by
        rw [List.getD_append_right _ _ _ _ (Nat.le_refl _)]
        simp
      rw [hget]
      constructor
      · rw [writeCount_other _ _ _ (by omega)]
        rw [writeUID_frame _ _ _ _ (by intro j hj; omega)]
        exact EEPROM.update_self _ _ _
      · intro j hj
        rw [writeCount_other _ _ _ (by omega)]
        rw [writeUID_at _ _ _ j (by omega)]
        rw [if_pos hj]

theorem Bare.runInserts_spec :
    ∀ (uids : List (List Nat)) (e : EEPROM) (l : List (List Nat)), reps e l →
      (∀ u ∈ uids, u ≠ [] ∧ u.length ≤ MAX_UID_LEN) → uids.Nodup →
      (∀ u ∈ uids, u ∉ l) → l.length + uids.length ≤ MAX_CARDS →
      (runInserts e uids).1 = List.replicate uids.length true ∧
      reps (runInserts e uids).2 (l ++ uids) := by
  intro uids
  induction uids with
  | nil =>
    intro e l h _ _ _ _
    exact ⟨rfl, by simpa using h⟩
  | cons u us ih =>
    intro e l h hgood hnd hdisj hcap
    have hMC : MAX_CARDS = 40 := rfl
    have hu := hgood u (List.mem_cons_self u us)
    have hcap2 : l.length < MAX_CARDS := by
      simp only [List.length_cons] at hcap
      omega
    obtain ⟨hflag, hreps⟩ :=
      addCard_success e l u h hu.1 hu.2 (hdisj u (List.mem_cons_self u us)) hcap2
    have hnotmem : u ∉ us := (List.nodup_cons.1 hnd).1
    obtain ⟨ihflag, ihreps⟩ := ih (addCard e u).2 (l ++ [u]) hreps
      (fun v hv => hgood v (List.mem_cons_of_mem u hv))
      (List.nodup_cons.1 hnd).2
      (by
        intro v hv
        rw [List.mem_append, List.mem_singleton]
        rintro (hvl | hvu)
        · exact hdisj v (List.mem_cons_of_mem u hv) hvl
        · exact hnotmem (hvu ▸ hv))
      (by simp only [List.length_append, List.length_singleton, List.length_cons,
        List.length_nil] at hcap ⊢; omega)
    constructor
    · show (addCard e u).1 :: (runInserts (addCard e u).2 us).1 = _
      rw [hflag, ihflag]
      simp [List.replicate_succ]
    · show reps (runInserts (addCard e u).2 us).2 (l ++ u :: us)
      have hassoc : l ++ u :: us = (l ++ [u]) ++ us := by simp
      rw [hassoc]
      exact ihreps

theorem Bare.clear_reps (e : EEPROM) : reps (clearAuthorizedList e) [] := by
  refine ⟨?_, by simp, by simp, by simp⟩
  unfold clearAuthorizedList
  rw [writeCount_same]
  rfl

theorem Bare.shiftLoop_succ (e : EEPROM) (idx m : Nat) :
    shiftLoop e idx (m + 1) =
      copyEntry (shiftLoop e idx m) (entryAddress (idx + m + 1)) (entryAddress (idx + m)) := by
  unfold shiftLoop
  rw [List.range_succ, List.foldl_append]
  simp only [List.foldl_cons, List.foldl_nil]

theorem Bare.shiftLoop_frame (e : EEPROM) (idx : Nat) :
    ∀ (m : Nat) (a : Nat), (a < entryAddress idx ∨ entryAddress (idx + m) ≤ a) →
      shiftLoop e idx m a = e a := by
  intro m
  induction m with
  | zero => intro a _; rfl
  | succ m ih =>
    intro a ha
    have hES : ENTRY_SIZE = 11 := rfl
    have h1 := entryAddress_eq idx
    have h2 := entryAddress_eq (idx + m)
    have h3 := entryAddress_eq (idx + m + 1)
    have h4 := entryAddress_eq (idx + (m + 1))
    rw [shiftLoop_succ]
    rw [copyEntry_frame _ _ _ _ (by intro b hb; omega)]
    exact ih a (by omega)

theorem Bare.shiftLoop_at (e : EEPROM) (idx : Nat) :
    ∀ (m j b : Nat), j < m → b < ENTRY_SIZE →
      shiftLoop e idx m (entryAddress (idx + j) + b) = e (entryAddress (idx + j + 1) + b) := by
  intro m
  induction m with
  | zero => intro j b hj _; omega
  | succ m ih =>
    intro j b hj hb
    have hES : ENTRY_SIZE = 11 := rfl
    have h1 := entryAddress_eq (idx + j)
    have h2 := entryAddress_eq (idx + j + 1)
    have h3 := entryAddress_eq (idx + m)
    have h4 := entryAddress_eq (idx + m + 1)
    rw [shiftLoop_succ]
    by_cases hjm : j = m
    · rw [hjm]
      rw [copyEntry_at _ _ _ b hb (by omega)]
      exact shiftLoop_frame e idx m _ (by omega)
    · rw [copyEntry_frame _ _ _ _ (by intro b2 hb2; omega)]
      exact ih j b (by omega) hb

theorem Bare.shiftLoop_at2 (e : EEPROM) (idx m i b : Nat) (h1 : idx ≤ i) (h2 : i < idx + m)
    (hb : b < ENTRY_SIZE) :
    shiftLoop e idx m (entryAddress i + b) = e (entryAddress (i + 1) + b) := by
  have ha : entryAddress i = entryAddress (idx + (i - idx)) := by congr 1; omega
  have hc : entryAddress (i + 1) = entryAddress (idx + (i - idx) + 1) := by congr 1; omega
  rw [ha, hc]
  exact shiftLoop_at e idx m (i - idx) b (by omega) hb

theorem Bare.removeState_cnt (e : EEPROM) (idx count : Nat) (hcle : count ≤ MAX_CARDS) :
    writeCount (zeroEntry (shiftLoop e idx (count - 1 - idx)) (entryAddress (count - 1)))
      (count - 1) EEPROM_ADDR_COUNT = count - 1 := by
  have hMC : MAX_CARDS = 40 := rfl
  rw [writeCount_same, if_neg (by omega)]

theorem Bare.removeState_low (e : EEPROM) (idx count i b : Nat) (hidx : idx < count)
    (hi : i < idx) (hb : b < ENTRY_SIZE) :
    writeCount (zeroEntry (shiftLoop e idx (count - 1 - idx)) (entryAddress (count - 1)))
      (count - 1) (entryAddress i + b) = e (entryAddress i + b) := by
  have hES : ENTRY_SIZE = 11 := rfl
  have hC0 : EEPROM_ADDR_COUNT = 0 := rfl
  have h1 := entryAddress_eq i
  have h2 := entryAddress_eq (count - 1)
  have h3 := entryAddress_eq idx
  rw [writeCount_other _ _ _ (by omega)]
  rw [zeroEntry_frame _ _ _ (by intro b2 hb2; omega)]
  exact shiftLoop_frame e idx (count - 1 - idx) _ (Or.inl (by omega))

theorem Bare.removeState_mid (e : EEPROM) (idx count i b : Nat) (hidx : idx ≤ i)
    (hi : i + 1 < count) (hb : b < ENTRY_SIZE) :
    writeCount (zeroEntry (shiftLoop e idx (count - 1 - idx)) (entryAddress (count - 1)))
      (count - 1) (entryAddress i + b) = e (entryAddress (i + 1) + b) := by
  have hES : ENTRY_SIZE = 11 := rfl
  have hC0 : EEPROM_ADDR_COUNT = 0 := rfl
  have h1 := entryAddress_eq i
  have h2 := entryAddress_eq (count - 1)
  rw [writeCount_other _ _ _ (by omega)]
  rw [zeroEntry_frame _ _ _ (by intro b2 hb2; omega)]
  exact shiftLoop_at2 e idx (count - 1 - idx) i b hidx (by omega) hb

theorem Bare.removeState_last (e : EEPROM) (idx count b : Nat) (hb : b < ENTRY_SIZE) :
    writeCount (zeroEntry (shiftLoop e idx (count - 1 - idx)) (entryAddress (count - 1)))
      (count - 1) (entryAddress (count - 1) + b) = 0 := by
  have hES : ENTRY_SIZE = 11 := rfl
  have hC0 : EEPROM_ADDR_COUNT = 0 := rfl
  have h2 := entryAddress_eq (count - 1)
  rw [writeCount_other _ _ _ (by omega)]
  exact zeroEntry_at _ _ b hb

/-! getD facts about the deletion list surgery take idx and drop (idx + 1). -/

theorem takeDrop_getD_lt {α : Type} (l : List α) (d : α) (idx i : Nat) (hidx : idx ≤ l.length)
    (hi : i < idx) : (l.take idx ++ l.drop (idx + 1)).getD i d = l.getD i d := by
  have hlt : i < (l.take idx).length := by simp [List.length_take]; omega
  rw [List.getD_append _ _ _ _ hlt]
  rw [List.getD_eq_getElem _ _ hlt, List.getD_eq_getElem _ _ (by omega : i < l.length)]
  exact List.getElem_take l

theorem takeDrop_getD_ge {α : Type} (l : List α) (d : α) (idx i : Nat) (hidx : idx ≤ l.length)
    (h1 : idx ≤ i) (h2 : i + 1 < l.length) :
    (l.take idx ++ l.drop (idx + 1)).getD i d = l.getD (i + 1) d := by
  have hlen : (l.take idx).length = idx := by simp [List.length_take]; omega
  rw [List.getD_append_right _ _ _ _ (by omega)]
  rw [hlen]
  have hlt : i - idx < (l.drop (idx + 1)).length := by simp [List.length_drop]; omega
  rw [show i + 1 = idx + 1 + (i - idx) by omega]
  rw [List.getD_eq_getElem _ _ hlt, List.getD_eq_getElem _ _ (by omega)]
  exact List.getElem_drop l

theorem takeDrop_length {α : Type} (l : List α) (idx : Nat) (hidx : idx < l.length) :
    (l.take idx ++ l.drop (idx + 1)).length = l.length - 1 := by
  simp [List.length_take, List.length_drop]
  omega

theorem Bare.getD_mem (l : List (List Nat)) (k : Nat) (hk : k < l.length) :
    l.getD k [] ∈ l := by
  rw [List.getD_eq_getElem _ _ hk]
  exact List.getElem_mem hk

theorem Bare.removeCard_fail (e : EEPROM) (uid : List Nat) (hf : findIndex e uid = none) :
    removeCard e uid = (false, e) := by
  simp only [removeCard, hf]

theorem Bare.removeCard_success (e : EEPROM) (l : List (List Nat)) (uid : List Nat) (idx : Nat)
    (h : reps e l) (hf : findIndex e uid = some idx) :
    (removeCard e uid).1 = true ∧
    reps (removeCard e uid).2 (l.take idx ++ l.drop (idx + 1)) ∧
    (∀ b, b < ENTRY_SIZE → (removeCard e uid).2 (entryAddress (l.length - 1) + b) = 0) ∧
    (∀ i b, idx ≤ i → i + 1 < l.length → b < ENTRY_SIZE →
      (removeCard e uid).2 (entryAddress i + b) = e (entryAddress (i + 1) + b)) := by
  have hcount := reps_readCount e l h
  obtain ⟨hidx, hEq, hfirst⟩ := findIndex_some_spec e l uid idx h hf
  have hMC : MAX_CARDS = 40 := rfl
  have hES : ENTRY_SIZE = 11 := rfl
  have hstate : removeCard e uid = (true,
      writeCount (zeroEntry (shiftLoop e idx (l.length - 1 - idx))
        (entryAddress (l.length - 1))) (l.length - 1)) := by
    simp only [removeCard, hf, hcount]
  have hrem2 : (removeCard e uid).2 =
      writeCount (zeroEntry (shiftLoop e idx (l.length - 1 - idx))
        (entryAddress (l.length - 1))) (l.length - 1) := by
    rw [hstate]
  refine ⟨by rw [hstate], ⟨?_, ?_, ?_, ?_⟩, ?_, ?_⟩
  · rw [hrem2, removeState_cnt e idx l.length h.2.1, takeDrop_length l idx hidx]
  · rw [takeDrop_length l idx hidx]
    have hc := h.2.1
    omega
  · intro u hu
    rcases List.mem_append.1 hu with ht | hd
    · exact h.2.2.1 u (List.mem_of_mem_take ht)
    · exact h.2.2.1 u (List.mem_of_mem_drop hd)
  · intro i hi
    rw [takeDrop_length l idx hidx] at hi
    by_cases hilt : i < idx
    · rw [takeDrop_getD_lt l [] idx i (Nat.le_of_lt hidx) hilt]
      obtain ⟨hL, hB⟩ := h.2.2.2 i (by omega)
      have hgi : (l.getD i []).length ≤ MAX_UID_LEN :=
        (h.2.2.1 _ (getD_mem l i (by omega))).2
      have hML : MAX_UID_LEN = 10 := rfl
      constructor
      · have h0 := removeState_low e idx l.length i 0 hidx hilt (by omega)
        simp only [Nat.add_zero] at h0
        rw [hrem2, h0, hL]
      · intro j hj
        have h1 := removeState_low e idx l.length i (1 + j) hidx hilt (by omega)
        rw [show entryAddress i + (1 + j) = entryAddress i + 1 + j by omega] at h1
        rw [hrem2, h1]
        exact hB j hj
    · have hge : idx ≤ i := by omega
      rw [takeDrop_getD_ge l [] idx i (by omega) hge (by omega)]
      obtain ⟨hL, hB⟩ := h.2.2.2 (i + 1) (by omega)
      have hgi : (l.getD (i + 1) []).length ≤ MAX_UID_LEN :=
        (h.2.2.1 _ (getD_mem l (i + 1) (by omega))).2
      have hML : MAX_UID_LEN = 10 := rfl
      constructor
      · have h0 := removeState_mid e idx l.length i 0 hge (by omega) (by omega)
        simp only [Nat.add_zero] at h0
        rw [hrem2, h0, hL]
      · intro j hj
        have h1 := removeState_mid e idx l.length i (1 + j) hge (by omega) (by omega)
        rw [show entryAddress i + (1 + j) = entryAddress i + 1 + j by omega,
          show entryAddress (i + 1) + (1 + j) = entryAddress (i + 1) + 1 + j by omega] at h1
        rw [hrem2, h1]
        exact hB j hj
  · intro b hb
    rw [hrem2]
    exact removeState_last e idx l.length b hb
  · intro i b h1 h2 hb
    rw [hrem2]
    exact removeState_mid e idx l.length i b h1 h2 hb

/-! Basic facts about the name-carrying variant layout helpers. -/

theorem Named.entryAddress_eq_named (i : Nat) : entryAddress i = 10 + i * 32 := by
  unfold entryAddress ENTRY_SIZE MAX_UID_LEN MAX_NAME_LEN EEPROM_ADDR_START
  omega

theorem Named.readCount_le_named (e : EEPROM) : readCount e ≤ MAX_CARDS := by
  unfold readCount
  split <;> omega

theorem Named.readCount_eq_of_named (e : EEPROM) (n : Nat) (h : e EEPROM_ADDR_COUNT = n)
    (hn : n ≤ MAX_CARDS) : readCount e = n := by
  unfold readCount
  rw [h, if_neg (by omega)]

theorem Named.matchAt_iff_named (e : EEPROM) (uid : List Nat) (idx : Nat) :
    matchAt e uid idx = true ↔
      (e (entryAddress idx) = uid.length ∧
        ∀ j, j < uid.length → e (entryAddress idx + 1 + j) = uid.getD j 0) := by
  unfold matchAt
  by_cases h : e (entryAddress idx) = uid.length
  · rw [if_neg (not_not_intro h), h]
    simp only [List.all_eq_true, List.mem_range, beq_iff_eq, h, true_and]
  · rw [if_pos h]
    simp only [Bool.false_eq_true, false_iff, not_and]
    intro hc
    exact absurd hc h

theorem Named.findIndexGo_none_named (e : EEPROM) (uid : List Nat) :
    ∀ (n idx : Nat), findIndexGo e uid n idx = none ↔
      ∀ k, idx ≤ k → k < idx + n → matchAt e uid k = false := by
  intro n
  induction n with
  | zero =>
    intro idx
    constructor
    · intro _ k h1 h2; omega
    · intro _; rfl
  | succ n ih =>
    intro idx
    by_cases hm : matchAt e uid idx = true
    · simp only [findIndexGo, hm, if_true]
      constructor
      · intro hnone; cases hnone
      · intro hall
        have h0 := hall idx (Nat.le_refl idx) (by omega)
        rw [hm] at h0
        cases h0
    · have hm' : matchAt e uid idx = false := by
        cases hmm : matchAt e uid idx
        · rfl
        · exact absurd hmm hm
      simp only [findIndexGo, hm', Bool.false_eq_true, if_false]
      constructor
      · intro hnone k h1 h2
        by_cases hk : k = idx
        · subst hk; exact hm'
        · exact ((ih (idx + 1)).1 hnone) k (by omega) (by omega)
      · intro hall
        exact (ih (idx + 1)).2 (fun k h1 h2 => hall k (by omega) (by omega))

theorem Named.findIndexGo_some_named (e : EEPROM) (uid : List Nat) :
    ∀ (n idx j : Nat), findIndexGo e uid n idx = some j →
      idx ≤ j ∧ j < idx + n ∧ matchAt e uid j = true ∧
      ∀ k, idx ≤ k → k < j → matchAt e uid k = false := by
  intro n
  induction n with
  | zero => intro idx j h; cases h
  | succ n ih =>
    intro idx j h
    by_cases hm : matchAt e uid idx = true
    · simp only [findIndexGo, hm, if_true, Option.some.injEq] at h
      subst h
      exact ⟨Nat.le_refl idx, by omega, hm, fun k h1 h2 => by omega⟩
    · have hm' : matchAt e uid idx = false := by
        cases hmm : matchAt e uid idx
        · rfl
        · exact absurd hmm hm
      simp only [findIndexGo, hm', Bool.false_eq_true, if_false] at h
      obtain ⟨ha, hb, hc, hd⟩ := ih (idx + 1) j h
      refine ⟨by omega, by omega, hc, ?_⟩
      intro k h1 h2
      by_cases hk : k = idx
      · subst hk; exact hm'
      · exact hd k (by omega) h2

theorem Named.reps_readCount_named (e : EEPROM) (l : List (List Nat × List Char)) (h : reps e l) :
    readCount e = l.length :=
  readCount_eq_of_named e l.length h.1 h.2.1

theorem Named.getD_mem_named (l : List (List Nat × List Char)) (k : Nat) (hk : k < l.length) :
    l.getD k ([], []) ∈ l := by
  rw [List.getD_eq_getElem _ _ hk]
  exact List.getElem_mem hk

theorem Named.matchAt_reps_named (e : EEPROM) (l : List (List Nat × List Char)) (uid : List Nat)
    (h : reps e l) (i : Nat) (hi : i < l.length) :
    matchAt e uid i = true ↔ (l.getD i ([], [])).1 = uid := by
  obtain ⟨h0, hlen, hgood, hent⟩ := h
  obtain ⟨hL, hB, _, _⟩ := hent i hi
  rw [matchAt_iff_named]
  constructor
  · intro ⟨hlu, hbyte⟩
    have hll : (l.getD i ([], [])).1.length = uid.length := by rw [← hL, hlu]
    apply List.ext_getElem hll
    intro j hj1 hj2
    have e1 := hB j hj1
    have e2 := hbyte j hj2
    rw [e1] at e2
    rw [List.getD_eq_getElem _ 0 hj1, List.getD_eq_getElem _ 0 hj2] at e2
    exact e2
  · intro heq
    refine ⟨by rw [hL, heq], ?_⟩
    intro j hj
    rw [hB j (by rw [heq]; exact hj), heq]

theorem Named.findIndex_none_iff_named (e : EEPROM) (l : List (List Nat × List Char)) (uid : List Nat)
    (h : reps e l) : findIndex e uid = none ↔ uid ∉ l.map Prod.fst := by
  rw [findIndex, reps_readCount_named e l h, findIndexGo_none_named]
  constructor
  · intro hall hmem
    obtain ⟨p, hp, hpe⟩ := List.mem_map.1 hmem
    obtain ⟨i, hi, hEq⟩ := List.getElem_of_mem hp
    have hEq2 : (l.getD i ([], [])).1 = uid := by
      rw [List.getD_eq_getElem _ _ hi, hEq, hpe]
    have ht : matchAt e uid i = true := (matchAt_reps_named e l uid h i hi).2 hEq2
    have hf := hall i (by omega) (by omega)
    rw [ht] at hf
    cases hf
  · intro hmem k h1 h2
    have hk : k < l.length := by omega
    cases hmm : matchAt e uid k
    · rfl
    · exfalso
      apply hmem
      have hvEq : (l.getD k ([], [])).1 = uid := (matchAt_reps_named e l uid h k hk).1 hmm
      rw [← hvEq]
      exact List.mem_map_of_mem Prod.fst (getD_mem_named l k hk)

theorem Named.findIndex_isSome_of_mem_named (e : EEPROM) (l : List (List Nat × List Char))
    (uid : List Nat) (h : reps e l) (hmem : uid ∈ l.map Prod.fst) :
    (findIndex e uid).isSome = true := by
  rw [Option.isSome_iff_ne_none]
  intro hn
  exact ((findIndex_none_iff_named e l uid h).1 hn) hmem

theorem Named.findIndex_isSome_iff (e : EEPROM) (uid : List Nat) :
    (findIndex e uid).isSome = true ↔
      ∃ k, k < readCount e ∧ matchAt e uid k = true := by
  rw [Option.isSome_iff_ne_none]
  constructor
  · intro h
    cases hf : findIndex e uid with
    | none => exact absurd hf h
    | some j =>
      obtain ⟨_, hb, hc, _⟩ := findIndexGo_some_named e uid (readCount e) 0 j hf
      exact ⟨j, by omega, hc⟩
  · intro ⟨k, hk, hm⟩ hnone
    have hk0 := (findIndexGo_none_named e uid (readCount e) 0).1 hnone k (by omega) (by omega)
    rw [hm] at hk0
    cases hk0

theorem Named.writeCount_same_named (e : EEPROM) (v : Nat) :
    writeCount e v EEPROM_ADDR_COUNT = if MAX_CARDS < v then MAX_CARDS else v :=
  EEPROM.update_self e EEPROM_ADDR_COUNT _

theorem Named.writeCount_other_named (e : EEPROM) (v a : Nat) (h : a ≠ EEPROM_ADDR_COUNT) :
    writeCount e v a = e a :=
  EEPROM.update_other e EEPROM_ADDR_COUNT _ a h

theorem Named.writeUID_at_named (e : EEPROM) (addr : Nat) (uid : List Nat) (j : Nat)
    (hj : j < MAX_UID_LEN) :
    writeUID e addr uid (addr + 1 + j) = if j < uid.length then uid.getD j 0 else 0 :=
  foldl_writeRange_at (addr + 1) (fun i => if i < uid.length then uid.getD i 0 else 0)
    MAX_UID_LEN e j hj

theorem Named.writeUID_frame_named (e : EEPROM) (addr : Nat) (uid : List Nat) (a : Nat)
    (h : ∀ j, j < MAX_UID_LEN → addr + 1 + j ≠ a) : writeUID e addr uid a = e a := by
  apply foldl_update_frame
  intro x hx
  simp only [List.mem_range] at hx
  exact h x hx

theorem Named.writeName_at (e : EEPROM) (addr : Nat) (name : List Char) (j : Nat)
    (hj : j < MAX_NAME_LEN) :
    writeName e addr name (addr + 1 + MAX_UID_LEN + 1 + j) =
      if j < name.length then (name.getD j 'A').toNat else 0 :=
  foldl_writeRange_at (addr + 1 + MAX_UID_LEN + 1)
    (fun i => if i < name.length then (name.getD i 'A').toNat else 0) MAX_NAME_LEN e j hj

theorem Named.writeName_frame (e : EEPROM) (addr : Nat) (name : List Char) (a : Nat)
    (h : ∀ j, j < MAX_NAME_LEN → addr + 1 + MAX_UID_LEN + 1 + j ≠ a) :
    writeName e addr name a = e a := by
  apply foldl_update_frame
  intro x hx
  simp only [List.mem_range] at hx
  exact h x hx

theorem Named.truncName_length (name : List Char) : (truncName name).length ≤ MAX_NAME_LEN := by
  unfold truncName
  split
  · simp [List.length_take]
  · omega

theorem Named.truncName_eq_of_le (name : List Char) (h : name.length ≤ MAX_NAME_LEN) :
    truncName name = name := by
  unfold truncName
  rw [if_neg (by omega)]

theorem Named.addCardWithName_fail (e : EEPROM) (uid : List Nat) (name : List Char)
    (h : uid.length = 0 ∨ MAX_CARDS ≤ readCount e ∨ (findIndex e uid).isSome = true) :
    addCardWithName e uid name = (false, e) := by
  unfold addCardWithName
  by_cases h1 : uid.length = 0
  · rw [if_pos h1]
  · rw [if_neg h1]
    by_cases h2 : MAX_CARDS ≤ readCount e
    · rw [if_pos h2]
    · rw [if_neg h2]
      by_cases h3 : (findIndex e uid).isSome = true
      · rw [if_pos h3]
      · rcases h with h | h | h
        · exact absurd h h1
        · exact absurd h h2
        · exact absurd h h3

theorem Named.addCardWithName_false_iff (e : EEPROM) (uid : List Nat) (name : List Char) :
    (addCardWithName e uid name).1 = false ↔
      (uid.length = 0 ∨ MAX_CARDS ≤ readCount e ∨ (findIndex e uid).isSome = true) := by
  unfold addCardWithName
  by_cases h1 : uid.length = 0
  · rw [if_pos h1]
    simp [h1]
  · rw [if_neg h1]
    by_cases h2 : MAX_CARDS ≤ readCount e
    · rw [if_pos h2]
      simp [h2]
    · rw [if_neg h2]
      by_cases h3 : (findIndex e uid).isSome = true
      · rw [if_pos h3]
        simp [h3]
      · rw [if_neg h3]
        simp [h1, h2, h3]

theorem Named.addCardWithName_success (e : EEPROM) (l : List (List Nat × List Char))
    (uid : List Nat) (name : List Char)
    (h : reps e l) (hne : uid ≠ []) (hlen : uid.length ≤ MAX_UID_LEN)
    (hmem : uid ∉ l.map Prod.fst) (hfull : l.length < MAX_CARDS) :
    (addCardWithName e uid name).1 = true ∧
    reps (addCardWithName e uid name).2 (l ++ [(uid, truncName name)]) := by
  have hcount := reps_readCount_named e l h
  have hfi : findIndex e uid = none := (findIndex_none_iff_named e l uid h).2 hmem
  have hMC : MAX_CARDS = 25 := rfl
  have hML : MAX_UID_LEN = 10 := rfl
  have hMN : MAX_NAME_LEN = 20 := rfl
  have hES : ENTRY_SIZE = 32 := rfl
  have hC0 : EEPROM_ADDR_COUNT = 0 := rfl
  have ha2 := entryAddress_eq_named l.length
  have htl := truncName_length name
  have hstate : addCardWithName e uid name = (true, writeCount
      (writeName
        (EEPROM.update
          (writeUID (EEPROM.update e (entryAddress l.length) uid.length)
            (entryAddress l.length) uid)
          (entryAddress l.length + 1 + MAX_UID_LEN) (truncName name).length)
        (entryAddress l.length) (truncName name))
      (l.length + 1)) := by
    unfold addCardWithName
    rw [hcount, hfi]
    rw [if_neg (fun hc => hne (List.length_eq_zero.1 hc)), if_neg (by omega), if_neg (by simp)]
  rw [hstate]
  refine ⟨rfl, ?_⟩
  show reps (writeCount
      (writeName
        (EEPROM.update
          (writeUID (EEPROM.update e (entryAddress l.length) uid.length)
            (entryAddress l.length) uid)
          (entryAddress l.length + 1 + MAX_UID_LEN) (truncName name).length)
        (entryAddress l.length) (truncName name))
      (l.length + 1)) (l ++ [(uid, truncName name)])
  have hframe : ∀ (i b : Nat), i < l.length → b < ENTRY_SIZE →
      writeCount
        (writeName
          (EEPROM.update
            (writeUID (EEPROM.update e (entryAddress l.length) uid.length)
              (entryAddress l.length) uid)
            (entryAddress l.length + 1 + MAX_UID_LEN) (truncName name).length)
          (entryAddress l.length) (truncName name))
        (l.length + 1) (entryAddress i + b) = e (entryAddress i + b) := by
    intro i b hil hb
    have ha1 := entryAddress_eq_named i
    rw [writeCount_other_named _ _ _ (by omega)]
    rw [writeName_frame _ _ _ _ (by intro j hj; omega)]
    rw [EEPROM.update_other _ _ _ _ (by omega)]
    rw [writeUID_frame_named _ _ _ _ (by intro j hj; omega)]
    exact EEPROM.update_other _ _ _ _ (by omega)
  refine ⟨?_, ?_, ?_, ?_⟩
  · rw [writeCount_same_named, if_neg (by omega)]
    simp
  · simp only [List.length_append, List.length_singleton]
    omega
  · intro p hp
    rcases List.mem_append.1 hp with hl | hr
    · exact h.2.2.1 p hl
    · rw [List.mem_singleton.1 hr]
      exact ⟨hne, hlen, htl⟩
  · intro i hi
    simp only [List.length_append, List.length_singleton] at hi
    by_cases hil : i < l.length
    · obtain ⟨hL, hB, hNL, hNB⟩ := h.2.2.2 i hil
      have hgi : (l.getD i ([], [])).1.length ≤ MAX_UID_LEN :=
        (h.2.2.1 _ (getD_mem_named l i hil)).2.1
      have hgn : (l.getD i ([], [])).2.length ≤ MAX_NAME_LEN :=
        (h.2.2.1 _ (getD_mem_named l i hil)).2.2
      rw [List.getD_append _ _ _ _ hil]
      refine ⟨?_, ?_, ?_, ?_⟩
      · have hf0 := hframe i 0 hil (by omega)
        simp only [Nat.add_zero] at hf0
        rw [hf0, hL]
      · intro j hj
        have hf1 := hframe i (1 + j) hil (by omega)
        rw [show entryAddress i + (1 + j) = entryAddress i + 1 + j by omega] at hf1
        rw [hf1]
        exact hB j hj
      · have hf2 := hframe i (1 + MAX_UID_LEN) hil (by omega)
        rw [show entryAddress i + (1 + MAX_UID_LEN) = entryAddress i + 1 + MAX_UID_LEN
          by omega] at hf2
        rw [hf2]
        exact hNL
      · intro j hj
        have hf3 := hframe i (1 + MAX_UID_LEN + 1 + j) hil (by omega)
        rw [show entryAddress i + (1 + MAX_UID_LEN + 1 + j) =
          entryAddress i + 1 + MAX_UID_LEN + 1 + j by omega] at hf3
        rw [hf3]
        exact hNB j hj
    · have hieq : i = l.length := by omega
      subst hieq
      have hget : (l ++ [(uid, truncName name)]).getD l.length ([], []) =
          (uid, truncName name) := by
        rw [List.getD_append_right _ _ _ _ (Nat.le_refl _)]
        simp
      rw [hget]
      have hp1 : (uid, truncName name).1.length = uid.length := rfl
      have hp2 : (uid, truncName name).2.length = (truncName name).length := rfl
      refine ⟨?_, ?_, ?_, ?_⟩
      · rw [writeCount_other_named _ _ _ (by omega)]
        rw [writeName_frame _ _ _ _ (by intro j hj; omega)]
        rw [EEPROM.update_other _ _ _ _ (by omega)]
        rw [writeUID_frame_named _ _ _ _ (by intro j hj; omega)]
        exact EEPROM.update_self _ _ _
      · intro j hj
        rw [writeCount_other_named _ _ _ (by omega)]
        rw [writeName_frame _ _ _ _ (by intro j2 hj2; omega)]
        rw [EEPROM.update_other _ _ _ _ (by omega)]
        rw [writeUID_at_named _ _ _ j (by omega)]
        rw [if_pos hj]
      · rw [writeCount_other_named _ _ _ (by omega)]
        rw [writeName_frame _ _ _ _ (by intro j hj; omega)]
        exact EEPROM.update_self _ _ _
      · intro j hj
        rw [writeCount_other_named _ _ _ (by omega)]
        rw [writeName_at _ _ _ j (by omega)]
        rw [if_pos hj]

theorem Named.insertAll_reps :
    ∀ (entries : List (List Nat × List Char)) (e : EEPROM) (l : List (List Nat × List Char)),
      reps e l →
      (∀ p ∈ entries, p.1 ≠ [] ∧ p.1.length ≤ MAX_UID_LEN ∧ p.2.length ≤ MAX_NAME_LEN) →
      (entries.map Prod.fst).Nodup →
      (∀ p ∈ entries, p.1 ∉ l.map Prod.fst) →
      l.length + entries.length ≤ MAX_CARDS →
      reps (insertAll e entries) (l ++ entries) := by
  intro entries
  induction entries with
  | nil =>
    intro e l h _ _ _ _
    simpa using h
  | cons p ps ih =>
    intro e l h hgood hnd hdisj hcap
    have hp := hgood p (List.mem_cons_self p ps)
    have hcap2 : l.length < MAX_CARDS := by
      simp only [List.length_cons] at hcap
      omega
    obtain ⟨hflag, hreps⟩ := addCardWithName_success e l p.1 p.2 h hp.1 hp.2.1
      (hdisj p (List.mem_cons_self p ps)) hcap2
    rw [truncName_eq_of_le p.2 hp.2.2] at hreps
    have hpeta : (p.1, p.2) = p := rfl
    rw [hpeta] at hreps
    have hnd2 : (p.1 :: ps.map Prod.fst).Nodup := by
      rw [List.map_cons] at hnd
      exact hnd
    have hnotmem : p.1 ∉ ps.map Prod.fst := (List.nodup_cons.1 hnd2).1
    have hrest := ih (addCardWithName e p.1 p.2).2 (l ++ [p]) hreps
      (fun q hq => hgood q (List.mem_cons_of_mem p hq))
      ((List.nodup_cons.1 hnd2).2)
      (by
        intro q hq
        rw [List.map_append, List.mem_append]
        rintro (hql | hqp)
        · exact hdisj q (List.mem_cons_of_mem p hq) hql
        · simp only [List.map_singleton, List.mem_singleton] at hqp
          exact hnotmem (hqp ▸ List.mem_map_of_mem Prod.fst hq))
      (by simp only [List.length_append, List.length_singleton, List.length_cons,
            List.length_nil] at hcap ⊢
          omega)
    have hstep : insertAll e (p :: ps) = insertAll (addCardWithName e p.1 p.2).2 ps := rfl
    rw [hstep]
    have hassoc : l ++ p :: ps = (l ++ [p]) ++ ps := by simp
    rw [hassoc]
    exact hrest

theorem map_range_eq {α : Type} (u : List α) (f : Nat → α)
    (h : ∀ (i : Nat) (hi : i < u.length), f i = u[i]) : (List.range u.length).map f = u := by
  apply List.ext_getElem (by simp)
  intro i h1 h2
  simp only [List.getElem_map, List.getElem_range]
  exact h i h2

theorem Named.countValid_of_reps (e : EEPROM) (l : List (List Nat × List Char))
    (h : reps e l) : countValid e = true := by
  unfold countValid
  rw [decide_eq_true_eq, h.1]
  exact h.2.1

theorem Named.setupInit_of_reps (e : EEPROM) (l : List (List Nat × List Char))
    (h : reps e l) : setupInit e = e := by
  unfold setupInit
  rw [if_pos (countValid_of_reps e l h)]

theorem Named.printAuthorizedList_reps (e : EEPROM) (l : List (List Nat × List Char))
    (h : reps e l) (hnames : ∀ p ∈ l, p.2 ≠ []) : printAuthorizedList e = l := by
  unfold printAuthorizedList
  rw [reps_readCount_named e l h]
  apply map_range_eq
  intro i hi
  obtain ⟨hL, hB, hNL, hNB⟩ := h.2.2.2 i hi
  have hgetD : l.getD i ([], []) = l[i] := List.getD_eq_getElem _ _ hi
  have huid : (List.range (e (entryAddress i))).map (fun j => e (entryAddress i + 1 + j)) =
      (l.getD i ([], [])).1 := by
    rw [hL]
    apply map_range_eq
    intro j hj
    rw [hB j hj]
    exact List.getD_eq_getElem _ _ hj
  have hname : readNameFromEEPROM e i = (l.getD i ([], [])).2 := by
    unfold readNameFromEEPROM
    rw [hNL]
    have hne : ¬((l.getD i ([], [])).2.length = 0) := by
      intro hzero
      exact hnames _ (getD_mem_named l i hi) (List.length_eq_zero.1 hzero)
    rw [if_neg hne]
    apply map_range_eq
    intro j hj
    rw [hNB j hj]
    rw [List.getD_eq_getElem _ _ hj]
    exact Char.ofNat_toNat _
  rw [huid, hname, hgetD]

/-! Behavior of the readLineFromSerial loop. -/

theorem Named.readLineGo_timeout :
    ∀ (input s : List Char), '\n' ∉ input →
      s.length + (input.filter (fun c => c != '\r')).length < MAX_NAME_LEN →
      readLineGo s input = ([], []) := by
  intro input
  induction input with
  | nil => intro s _ _; rfl
  | cons c cs ih =>
    intro s hnl hlen
    have hc : ¬(c = '\n') := fun h => hnl (h ▸ List.mem_cons_self c cs)
    have hnl2 : '\n' ∉ cs := fun h => hnl (List.mem_cons_of_mem c h)
    by_cases hr : c = '\r'
    · have hstep : readLineGo s (c :: cs) = readLineGo s cs := by
        simp only [readLineGo, if_pos hr]
      have hfc : ((c :: cs).filter (fun x => x != '\r')).length =
          (cs.filter (fun x => x != '\r')).length := by
        simp [List.filter_cons, hr]
      rw [hstep]
      apply ih s hnl2
      omega
    · have hfc : ((c :: cs).filter (fun x => x != '\r')).length =
          (cs.filter (fun x => x != '\r')).length + 1 := by
        simp [List.filter_cons, hr]
      have hMN : MAX_NAME_LEN = 20 := rfl
      have hstep : readLineGo s (c :: cs) = readLineGo (s ++ [c]) cs := by
        simp only [readLineGo, if_neg hr, if_neg hc]
        rw [if_neg (by simp only [List.length_append, List.length_singleton]; omega)]
      rw [hstep]
      apply ih (s ++ [c]) hnl2
      simp only [List.length_append, List.length_singleton]
      omega

theorem Named.readLineGo_newline :
    ∀ (a s rest : List Char), '\n' ∉ a →
      s.length + (a.filter (fun c => c != '\r')).length < MAX_NAME_LEN →
      readLineGo s (a ++ '\n' :: rest) = (s ++ a.filter (fun c => c != '\r'), rest) := by
  intro a
  induction a with
  | nil =>
    intro s rest _ _
    simp [readLineGo]
  | cons c cs ih =>
    intro s rest hnl hlen
    have hc : ¬(c = '\n') := fun h => hnl (h ▸ List.mem_cons_self c cs)
    have hnl2 : '\n' ∉ cs := fun h => hnl (List.mem_cons_of_mem c h)
    by_cases hr : c = '\r'
    · have hstep : readLineGo s ((c :: cs) ++ '\n' :: rest) =
          readLineGo s (cs ++ '\n' :: rest) := by
        simp only [List.cons_append, readLineGo, if_pos hr, List.append_eq]
      have hfc : ((c :: cs).filter (fun x => x != '\r')) =
          cs.filter (fun x => x != '\r') := by
        simp [List.filter_cons, hr]
      rw [hstep, hfc]
      apply ih s rest hnl2
      rw [hfc] at hlen
      exact hlen
    · have hfc : ((c :: cs).filter (fun x => x != '\r')) =
          c :: cs.filter (fun x => x != '\r') := by
        simp [List.filter_cons, hr]
      have hMN : MAX_NAME_LEN = 20 := rfl
      have hlen2 : s.length + (cs.filter (fun x => x != '\r')).length + 1 < MAX_NAME_LEN := by
        rw [hfc] at hlen
        simp only [List.length_cons] at hlen
        omega
      have hnocap : ¬(MAX_NAME_LEN ≤ (s ++ [c]).length) := by
        simp only [List.length_append, List.length_singleton]
        omega
      have hstep : readLineGo s ((c :: cs) ++ '\n' :: rest) =
          readLineGo (s ++ [c]) (cs ++ '\n' :: rest) := by
        simp only [List.cons_append, readLineGo, if_neg hr, if_neg hc, if_neg hnocap,
          List.append_eq]
      rw [hstep, hfc]
      have hres := ih (s ++ [c]) rest hnl2
        (by simp only [List.length_append, List.length_singleton]; omega)
      rw [hres]
      simp

theorem Named.readLineGo_cap :
    ∀ (a s : List Char) (c : Char) (rest : List Char), '\n' ∉ a → ¬(c = '\n') → ¬(c = '\r') →
      s.length + (a.filter (fun x => x != '\r')).length + 1 = MAX_NAME_LEN →
      readLineGo s (a ++ c :: rest) =
        (s ++ a.filter (fun x => x != '\r') ++ [c], discardToNewline rest) := by
  intro a
  induction a with
  | nil =>
    intro s c rest _ hcn hcr hlen
    simp only [List.filter_nil, List.length_nil] at hlen
    have hcap : MAX_NAME_LEN ≤ (s ++ [c]).length := by
      simp only [List.length_append, List.length_singleton]
      omega
    simp only [List.nil_append, readLineGo, if_neg hcr, if_neg hcn, if_pos hcap,
      List.filter_nil, List.append_nil]
  | cons d ds ih =>
    intro s c rest hnl hcn hcr hlen
    have hd : ¬(d = '\n') := fun h => hnl (h ▸ List.mem_cons_self d ds)
    have hnl2 : '\n' ∉ ds := fun h => hnl (List.mem_cons_of_mem d h)
    by_cases hr : d = '\r'
    · have hstep : readLineGo s ((d :: ds) ++ c :: rest) =
          readLineGo s (ds ++ c :: rest) := by
        simp only [List.cons_append, readLineGo, if_pos hr, List.append_eq]
      have hfc : ((d :: ds).filter (fun x => x != '\r')) =
          ds.filter (fun x => x != '\r') := by
        simp [List.filter_cons, hr]
      rw [hstep, hfc]
      apply ih s c rest hnl2 hcn hcr
      rw [hfc] at hlen
      exact hlen
    · have hfc : ((d :: ds).filter (fun x => x != '\r')) =
          d :: ds.filter (fun x => x != '\r') := by
        simp [List.filter_cons, hr]
      have hMN : MAX_NAME_LEN = 20 := rfl
      have hlen2 : s.length + (ds.filter (fun x => x != '\r')).length + 2 = MAX_NAME_LEN := by
        rw [hfc] at hlen
        simp only [List.length_cons] at hlen
        omega
      have hnocap : ¬(MAX_NAME_LEN ≤ (s ++ [d]).length) := by
        simp only [List.length_append, List.length_singleton]
        omega
      have hstep : readLineGo s ((d :: ds) ++ c :: rest) =
          readLineGo (s ++ [d]) (ds ++ c :: rest) := by
        simp only [List.cons_append, readLineGo, if_neg hr, if_neg hd, if_neg hnocap,
          List.append_eq]
      rw [hstep, hfc]
      have hres := ih (s ++ [d]) c rest hnl2 hcn hcr
        (by simp only [List.length_append, List.length_singleton]; omega)
      rw [hres]
      simp

/-! Frame lemmas for the dwell loop state. -/

theorem serviceSerial_uid (st : DwellSt) (ser : Option Char) (line : List Char) :
    (serviceSerial st ser line).currentUID = st.currentUID := by
  cases ser with
  | none => rfl
  | some ch =>
    simp only [serviceSerial]
    split_ifs <;> rfl

theorem serviceSerial_reader (st : DwellSt) (ser : Option Char) (line : List Char) :
    (serviceSerial st ser line).readerUID = st.readerUID := by
  cases ser with
  | none => rfl
  | some ch =>
    simp only [serviceSerial]
    split_ifs <;> rfl

theorem dwellIter_uid (st : DwellSt) (inp : DwellInput) :
    (dwellIter st inp).1.currentUID = st.currentUID := by
  cases hp : inp.poll with
  | none =>
    simp only [dwellIter, hp]
    exact serviceSerial_uid st inp.ser inp.line
  | some ruid =>
    simp only [dwellIter, hp]
    exact serviceSerial_uid st inp.ser inp.line

theorem dwellRun_uid :
    ∀ (inps : List DwellInput) (st : DwellSt), (dwellRun st inps).currentUID = st.currentUID := by
  intro inps
  induction inps with
  | nil => intro st; rfl
  | cons inp rest ih =>
    intro st
    simp only [dwellRun]
    by_cases hb : (dwellIter st inp).2 = true
    · rw [if_pos hb]
      exact dwellIter_uid st inp
    · rw [if_neg hb]
      rw [ih (dwellIter st inp).1]
      exact dwellIter_uid st inp

/-! Nodup facts about the deletion list surgery. -/

theorem takeDrop_not_mem {α : Type} [DecidableEq α] (l : List α) (d : α) (idx : Nat)
    (hidx : idx < l.length) (hnd : l.Nodup) :
    l.getD idx d ∉ (l.take idx ++ l.drop (idx + 1)) := by
  intro hmem
  obtain ⟨k, hk, hEq⟩ := List.getElem_of_mem hmem
  have hklen : k < l.length - 1 := by
    rw [takeDrop_length l idx hidx] at hk
    exact hk
  have hgd : (l.take idx ++ l.drop (idx + 1)).getD k d = l.getD idx d := by
    rw [List.getD_eq_getElem _ _ hk]
    exact hEq
  by_cases hkl : k < idx
  · rw [takeDrop_getD_lt l d idx k (Nat.le_of_lt hidx) hkl] at hgd
    rw [List.getD_eq_getElem _ _ (by omega), List.getD_eq_getElem _ _ hidx] at hgd
    have := (List.Nodup.getElem_inj_iff hnd).1 hgd
    omega
  · rw [takeDrop_getD_ge l d idx k (Nat.le_of_lt hidx) (by omega) (by omega)] at hgd
    rw [List.getD_eq_getElem _ _ (by omega), List.getD_eq_getElem _ _ hidx] at hgd
    have := (List.Nodup.getElem_inj_iff hnd).1 hgd
    omega

theorem takeDrop_nodup {α : Type} (l : List α) (idx : Nat) (hnd : l.Nodup) :
    (l.take idx ++ l.drop (idx + 1)).Nodup := by
  have hdd : (l.drop idx).drop 1 = l.drop (idx + 1) := by
    rw [List.drop_drop]
  have hsub : List.Sublist (l.take idx ++ l.drop (idx + 1)) l := by
    have h1 : List.Sublist (l.drop (idx + 1)) (l.drop idx) := by
      rw [← hdd]
      exact List.drop_sublist 1 (l.drop idx)
    have h2 := List.Sublist.append_left h1 (l.take idx)
    have h3 : l.take idx ++ l.drop idx = l := List.take_append_drop idx l
    rw [h3] at h2
    exact h2
  exact List.Nodup.sublist hsub hnd

theorem Named.captureUID_eq_take (raw : List Nat) :
    captureUID raw = raw.take MAX_UID_LEN := by
  unfold captureUID
  by_cases h : MAX_UID_LEN < raw.length
  · rw [if_pos h]
    apply List.ext_getElem (by simp [List.length_take]; omega)
    intro i h1 h2
    simp only [List.getElem_map, List.getElem_range]
    rw [List.getD_eq_getElem _ _ (by simp at h1; omega)]
    exact (List.getElem_take raw).symm
  · rw [if_neg h]
    rw [List.take_of_length_le (by omega)]
    apply map_range_eq
    intro i hi
    exact List.getD_eq_getElem _ _ hi

/-! Claim theorems. -/

/-- Claim C1: starting from an empty registry, a sequence of addCard calls with
pairwise-distinct, non-empty identifiers of reader-bounded length, not exceeding
the capacity, all succeed; every inserted identifier is subsequently found by
findIndex; and the stored count equals the number of successful inserts. -/
theorem insert_sequence_spec (e : EEPROM) (uids : List (List Nat))
    (he : Bare.reps e []) (hnd : uids.Nodup)
    (hgood : ∀ u ∈ uids, u ≠ [] ∧ u.length ≤ Bare.MAX_UID_LEN)
    (hcap : uids.length ≤ Bare.MAX_CARDS) :
    (Bare.runInserts e uids).1 = List.replicate uids.length true ∧
    Bare.readCount (Bare.runInserts e uids).2 = uids.length ∧
    ∀ u ∈ uids, (Bare.findIndex (Bare.runInserts e uids).2 u).isSome = true := by
  obtain ⟨hflags, hreps⟩ := Bare.runInserts_spec uids e [] he hgood hnd
    (by intro u hu; simp) (by simpa using hcap)
  rw [List.nil_append] at hreps
  exact ⟨hflags, Bare.reps_readCount _ _ hreps,
    fun u hu => Bare.findIndex_isSome_of_mem _ _ _ hreps hu⟩

theorem insert_sequence_spec_witness :
    (Bare.runInserts zeroE [[1], [2]]).1 = List.replicate 2 true ∧
    Bare.readCount (Bare.runInserts zeroE [[1], [2]]).2 = 2 ∧
    ∀ u ∈ [[1], [2]], (Bare.findIndex (Bare.runInserts zeroE [[1], [2]]).2 u).isSome = true :=
  insert_sequence_spec zeroE [[1], [2]] (by decide) (by decide) (by decide) (by decide)

/-- Claim C2: an insert of the name-carrying variant fails exactly when the
identifier is empty, or the stored count equals the capacity, or a live slot
already holds a byte-equal identifier of equal length (whatever the label);
and a failed insert returns the storage unchanged. -/
theorem insert_reject_iff (e : EEPROM) (uid : List Nat) (name : List Char) :
    ((Named.addCardWithName e uid name).1 = false ↔
      (uid = [] ∨ Named.readCount e = Named.MAX_CARDS ∨
        ∃ i, i < Named.readCount e ∧ e (Named.entryAddress i) = uid.length ∧
          ∀ j, j < uid.length → e (Named.entryAddress i + 1 + j) = uid.getD j 0)) ∧
    ((Named.addCardWithName e uid name).1 = false →
      (Named.addCardWithName e uid name).2 = e) := by
  constructor
  · apply Iff.trans (Named.addCardWithName_false_iff e uid name)
    apply or_congr
    · exact List.length_eq_zero
    apply or_congr
    · constructor
      · intro h
        exact Nat.le_antisymm (Named.readCount_le_named e) h
      · intro h
        exact Nat.le_of_eq h.symm
    · rw [Named.findIndex_isSome_iff]
      apply exists_congr
      intro k
      apply and_congr_right
      intro hk
      exact Named.matchAt_iff_named e uid k
  · intro hfalse
    have hfail := Named.addCardWithName_fail e uid name
      ((Named.addCardWithName_false_iff e uid name).1 hfalse)
    rw [hfail]

theorem insert_reject_iff_witness :
    (Named.addCardWithName zeroE [] ['A']).1 = false ∧
    (Named.addCardWithName zeroE [] ['A']).2 = zeroE := by
  have h := insert_reject_iff zeroE [] ['A']
  have hfalse : (Named.addCardWithName zeroE [] ['A']).1 = false := (h.1).2 (Or.inl rfl)
  exact ⟨hfalse, h.2 hfalse⟩

/-- Claim C3: behavior of the dwell loop removal counter at the claimed boundary.
After six consecutive failed polls the controller is still in the present state
with counter six; the transition to idle happens only on the seventh consecutive
failure; a successful poll resets the counter to zero, so a run of failures
followed by a success never causes removal. The source comment on REMOVAL_CHECKS
says six consecutive no-card checks decide removal, but the loop breaks only when
the counter strictly exceeds six, an off-by-one in the code. -/
theorem dwell_removal_behavior :
    dwellPolls (.present 0) (List.replicate 6 false) = .present 6 ∧
    dwellPolls (.present 0) (List.replicate 7 false) = .idle ∧
    dwellPolls (.present 0) (List.replicate 5 false ++ [true]) = .present 0 ∧
    dwellPolls (.present 0) (List.replicate 6 false ++ [true]) = .present 0 ∧
    (∀ (c : Nat) (ps : List Bool),
      dwellPolls (.present c) (true :: ps) = dwellPolls (.present 0) ps) := by
  refine ⟨by decide, by decide, by decide, by decide, ?_⟩
  intro c ps
  rfl

/-- Claim C7: the startup check reads the persisted count and resets it to zero
exactly when it exceeds the capacity; an in-range count causes no write; running
the startup check twice has the same effect as running it once. -/
theorem setup_count_spec (e : EEPROM) :
    (Bare.countValid e = false ↔ Bare.MAX_CARDS < e Bare.EEPROM_ADDR_COUNT) ∧
    (Bare.countValid e = true → Bare.setupInit e = e) ∧
    (Bare.countValid e = false → Bare.setupInit e Bare.EEPROM_ADDR_COUNT = 0 ∧
      ∀ a, a ≠ Bare.EEPROM_ADDR_COUNT → Bare.setupInit e a = e a) ∧
    Bare.setupInit (Bare.setupInit e) = Bare.setupInit e := by
  have hiff : Bare.countValid e = false ↔ Bare.MAX_CARDS < e Bare.EEPROM_ADDR_COUNT := by
    unfold Bare.countValid
    rw [decide_eq_false_iff_not]
    exact Nat.not_le
  refine ⟨hiff, ?_, ?_, ?_⟩
  · intro hv
    unfold Bare.setupInit
    rw [if_pos hv]
  · intro hv
    have hv2 : ¬(Bare.countValid e = true) := by
      rw [hv]
      exact Bool.false_ne_true
    unfold Bare.setupInit
    rw [if_neg hv2]
    constructor
    · rw [Bare.writeCount_same]
      rfl
    · intro a ha
      exact Bare.writeCount_other e 0 a ha
  · by_cases hv : Bare.countValid e = true
    · have h1 : Bare.setupInit e = e := by
        unfold Bare.setupInit
        rw [if_pos hv]
      rw [h1]
      exact h1
    · have h1 : Bare.setupInit e = Bare.writeCount e 0 := by
        unfold Bare.setupInit
        rw [if_neg hv]
      have hv3 : Bare.countValid (Bare.writeCount e 0) = true := by
        unfold Bare.countValid
        rw [decide_eq_true_eq, Bare.writeCount_same]
        decide
      have h2 : Bare.setupInit (Bare.writeCount e 0) = Bare.writeCount e 0 := by
        unfold Bare.setupInit
        rw [if_pos hv3]
      rw [h1, h2]

theorem setup_count_spec_witness :
    Bare.setupInit zeroE = zeroE ∧
    Bare.setupInit (EEPROM.update zeroE 0 41) Bare.EEPROM_ADDR_COUNT = 0 := by
  have h1 := (setup_count_spec zeroE).2.1 (by decide)
  have h2 := ((setup_count_spec (EEPROM.update zeroE 0 41)).2.2.1 (by decide)).1
  exact ⟨h1, h2⟩

/-- Claim C4: deleting an identifier that is not stored fails and changes
nothing; deleting a stored identifier succeeds, shifts every slot after the
matched index one position toward the front byte for byte (so the remaining
entries keep their relative order, witnessed by the representation of the
spliced list), zeroes the now-unused final slot, decrements the count by
exactly one, and the identifier is no longer found by lookup. -/
theorem delete_spec (e : EEPROM) (l : List (List Nat)) (uid : List Nat)
    (h : Bare.reps e l) (hnd : l.Nodup) :
    (uid ∉ l → Bare.removeCard e uid = (false, e)) ∧
    (uid ∈ l → ∃ idx, Bare.findIndex e uid = some idx ∧ idx < l.length ∧
      l.getD idx [] = uid ∧
      (Bare.removeCard e uid).1 = true ∧
      Bare.readCount (Bare.removeCard e uid).2 = l.length - 1 ∧
      Bare.reps (Bare.removeCard e uid).2 (l.take idx ++ l.drop (idx + 1)) ∧
      (∀ i b, idx ≤ i → i + 1 < l.length → b < Bare.ENTRY_SIZE →
        (Bare.removeCard e uid).2 (Bare.entryAddress i + b) =
          e (Bare.entryAddress (i + 1) + b)) ∧
      (∀ b, b < Bare.ENTRY_SIZE →
        (Bare.removeCard e uid).2 (Bare.entryAddress (l.length - 1) + b) = 0) ∧
      Bare.findIndex (Bare.removeCard e uid).2 uid = none) := by
  constructor
  · intro hmem
    exact Bare.removeCard_fail e uid ((Bare.findIndex_none_iff e l uid h).2 hmem)
  · intro hmem
    cases hf : Bare.findIndex e uid with
    | none => exact absurd hmem ((Bare.findIndex_none_iff e l uid h).1 hf)
    | some idx =>
      obtain ⟨hidx, hEq, _⟩ := Bare.findIndex_some_spec e l uid idx h hf
      obtain ⟨hflag, hreps, hzero, hshift⟩ := Bare.removeCard_success e l uid idx h hf
      refine ⟨idx, rfl, hidx, hEq, hflag, ?_, hreps, hshift, hzero, ?_⟩
      · rw [Bare.reps_readCount _ _ hreps, takeDrop_length l idx hidx]
      · apply (Bare.findIndex_none_iff _ _ uid hreps).2
        rw [← hEq]
        exact takeDrop_not_mem l [] idx hidx hnd

theorem delete_spec_witness :
    (Bare.removeCard (Bare.runInserts zeroE [[1], [2], [3]]).2 [2]).1 = true ∧
    Bare.readCount (Bare.removeCard (Bare.runInserts zeroE [[1], [2], [3]]).2 [2]).2 = 2 ∧
    Bare.findIndex (Bare.removeCard (Bare.runInserts zeroE [[1], [2], [3]]).2 [2]).2 [2] =
      none ∧
    Bare.removeCard (Bare.runInserts zeroE [[1], [2], [3]]).2 [7] =
      (false, (Bare.runInserts zeroE [[1], [2], [3]]).2) := by
  have h := delete_spec (Bare.runInserts zeroE [[1], [2], [3]]).2 [[1], [2], [3]] [2]
    (by decide) (by decide)
  have h7 := delete_spec (Bare.runInserts zeroE [[1], [2], [3]]).2 [[1], [2], [3]] [7]
    (by decide) (by decide)
  obtain ⟨idx, hf, hidx, hEq, hflag, hcnt, _, _, _, hnone⟩ := h.2 (by decide)
  exact ⟨hflag, hcnt, hnone, h7.1 (by decide)⟩

/-- Claim C5: every registry operation preserves the registry invariants: the
storage faithfully holds an entry list (live entries contiguous in the slots
below the count, the count at most the capacity) with pairwise-distinct
identifiers. The inserted identifier is bounded by the reader capture length. -/
theorem registry_invariants_preserved (e : EEPROM) (uid : List Nat)
    (hlen : uid.length ≤ Bare.MAX_UID_LEN) (h : Bare.Inv e) :
    Bare.Inv (Bare.addCard e uid).2 ∧ Bare.Inv (Bare.removeCard e uid).2 ∧
    Bare.Inv (Bare.clearAuthorizedList e) := by
  obtain ⟨l, hreps, hnd⟩ := h
  refine ⟨?_, ?_, ⟨[], Bare.clear_reps e, List.nodup_nil⟩⟩
  · by_cases hne : uid = []
    · rw [Bare.addCard_fail e uid (Or.inl (by rw [hne]; rfl))]
      exact ⟨l, hreps, hnd⟩
    · by_cases hmem : uid ∈ l
      · rw [Bare.addCard_fail e uid
          (Or.inr (Or.inr (Bare.findIndex_isSome_of_mem e l uid hreps hmem)))]
        exact ⟨l, hreps, hnd⟩
      · by_cases hfull : l.length < Bare.MAX_CARDS
        · obtain ⟨_, hreps2⟩ := Bare.addCard_success e l uid hreps hne hlen hmem hfull
          refine ⟨l ++ [uid], hreps2, ?_⟩
          rw [List.nodup_append]
          refine ⟨hnd, List.nodup_singleton uid, ?_⟩
          intro a ha hb
          rw [List.mem_singleton] at hb
          exact hmem (hb ▸ ha)
        · have hcnt := Bare.reps_readCount e l hreps
          rw [Bare.addCard_fail e uid (Or.inr (Or.inl (by omega)))]
          exact ⟨l, hreps, hnd⟩
  · cases hf : Bare.findIndex e uid with
    | none =>
      rw [Bare.removeCard_fail e uid hf]
      exact ⟨l, hreps, hnd⟩
    | some idx =>
      obtain ⟨hidx, hEq, _⟩ := Bare.findIndex_some_spec e l uid idx hreps hf
      obtain ⟨_, hreps2, _, _⟩ := Bare.removeCard_success e l uid idx hreps hf
      exact ⟨l.take idx ++ l.drop (idx + 1), hreps2, takeDrop_nodup l idx hnd⟩

theorem registry_invariants_preserved_witness :
    Bare.Inv (Bare.addCard zeroE [1]).2 ∧ Bare.Inv (Bare.removeCard zeroE [1]).2 ∧
    Bare.Inv (Bare.clearAuthorizedList zeroE) :=
  registry_invariants_preserved zeroE [1] (by decide) ⟨[], by decide, List.nodup_nil⟩

/-- Claim C6: round trip through persistence. Insert entries with distinct
non-empty identifiers and non-empty labels within the size bounds into an empty
registry; rerunning the startup check on the persisted state and enumerating
yields exactly the inserted entries in insertion order, and the reloaded count
equals the number of entries. -/
theorem roundtrip_spec (e : EEPROM) (entries : List (List Nat × List Char))
    (he : Named.reps e [])
    (hgood : ∀ p ∈ entries, p.1 ≠ [] ∧ p.1.length ≤ Named.MAX_UID_LEN ∧
      p.2 ≠ [] ∧ p.2.length ≤ Named.MAX_NAME_LEN)
    (hnd : (entries.map Prod.fst).Nodup)
    (hcap : entries.length ≤ Named.MAX_CARDS) :
    Named.printAuthorizedList (Named.setupInit (Named.insertAll e entries)) = entries ∧
    Named.readCount (Named.setupInit (Named.insertAll e entries)) = entries.length := by
  have hreps := Named.insertAll_reps entries e [] he
    (fun p hp => ⟨(hgood p hp).1, (hgood p hp).2.1, (hgood p hp).2.2.2⟩) hnd
    (by intro p hp; simp) (by simpa using hcap)
  rw [List.nil_append] at hreps
  rw [Named.setupInit_of_reps _ entries hreps]
  exact ⟨Named.printAuthorizedList_reps _ entries hreps (fun p hp => (hgood p hp).2.2.1),
    Named.reps_readCount_named _ entries hreps⟩

theorem roundtrip_spec_witness :
    Named.printAuthorizedList
      (Named.setupInit (Named.insertAll zeroE [([1], ['A', 'l']), ([2], ['B', 'o'])])) =
      [([1], ['A', 'l']), ([2], ['B', 'o'])] ∧
    Named.readCount
      (Named.setupInit (Named.insertAll zeroE [([1], ['A', 'l']), ([2], ['B', 'o'])])) = 2 :=
  roundtrip_spec zeroE [([1], ['A', 'l']), ([2], ['B', 'o'])]
    (by decide) (by decide) (by decide) (by decide)

/-- Claim C8 counterexample: addCardWithName does not reject an identifier
longer than the maximum identifier length; an eleven-byte identifier is accepted
on an empty registry (the insert returns true rather than a rejection). -/
theorem insert_long_uid_counterexample :
    (Named.addCardWithName zeroE (List.replicate 11 1) ['A']).1 = true := by decide

/-- Claim C8 (amended): the insert routine performs no identifier-length
validation of its own: the main-loop capture step clamps the read identifier to
MAX_UID_LEN bytes (a silent truncation at the caller), and any non-empty
identifier is accepted by insert on an empty registry; a label longer than
MAX_NAME_LEN is silently truncated to MAX_NAME_LEN characters and the insert
succeeds, storing the truncated label. -/
theorem insert_length_handling (e : EEPROM) (l : List (List Nat × List Char))
    (uid : List Nat) (name : List Char) (h : Named.reps e l) (hne : uid ≠ [])
    (hlen : uid.length ≤ Named.MAX_UID_LEN) (hmem : uid ∉ l.map Prod.fst)
    (hfull : l.length < Named.MAX_CARDS) (hlong : Named.MAX_NAME_LEN < name.length) :
    (∀ raw : List Nat, Named.captureUID raw = raw.take Named.MAX_UID_LEN) ∧
    (∀ (uid2 : List Nat) (name2 : List Char), uid2 ≠ [] →
      (Named.addCardWithName zeroE uid2 name2).1 = true) ∧
    ((Named.addCardWithName e uid name).1 = true ∧
      Named.reps (Named.addCardWithName e uid name).2
        (l ++ [(uid, name.take Named.MAX_NAME_LEN)])) := by
  refine ⟨Named.captureUID_eq_take, ?_, ?_⟩
  · intro uid2 name2 hne2
    cases hflag : (Named.addCardWithName zeroE uid2 name2).1 with
    | true => rfl
    | false =>
      exfalso
      rcases (Named.addCardWithName_false_iff zeroE uid2 name2).1 hflag with h0 | hc | hs
      · exact hne2 (List.length_eq_zero.1 h0)
      · have hz : Named.readCount zeroE = 0 := rfl
        have hMC : Named.MAX_CARDS = 25 := rfl
        omega
      · have hfi : Named.findIndex zeroE uid2 = none := rfl
        rw [hfi] at hs
        cases hs
  · have ht : Named.truncName name = name.take Named.MAX_NAME_LEN := by
      unfold Named.truncName
      rw [if_pos hlong]
    obtain ⟨hf, hr⟩ := Named.addCardWithName_success e l uid name h hne hlen hmem hfull
    rw [ht] at hr
    exact ⟨hf, hr⟩

theorem insert_length_handling_witness :
    Named.captureUID (List.replicate 12 7) = (List.replicate 12 7).take Named.MAX_UID_LEN ∧
    (Named.addCardWithName zeroE (List.replicate 11 2) []).1 = true ∧
    (Named.addCardWithName zeroE [1] (List.replicate 21 'x')).1 = true := by
  have h := insert_length_handling zeroE [] [1] (List.replicate 21 'x')
    (by decide) (by decide) (by decide) (by decide) (by decide) (by decide)
  exact ⟨h.1 (List.replicate 12 7), h.2.1 (List.replicate 11 2) [] (by decide), h.2.2.1⟩

/-- Claim C9: the line-reading routine accumulates characters, ignoring carriage
returns; a newline returns the accumulated string with the rest left buffered;
reaching the length cap returns the capped string and discards the remaining
characters up to the next newline instead of buffering them; exhausting the
input with no terminator (the timeout) returns the empty string, which the add
command treats as cancellation, performing no insert. -/
theorem readline_protocol :
    (∀ input : List Char, '\n' ∉ input →
      (input.filter (fun c => c != '\r')).length < Named.MAX_NAME_LEN →
      Named.readLineFromSerial input = ([], []) ∧
      ∀ (e : EEPROM) (uid : List Nat), Named.handleAddCommand e uid input = (e, false)) ∧
    (∀ a rest : List Char, '\n' ∉ a →
      (a.filter (fun c => c != '\r')).length < Named.MAX_NAME_LEN →
      Named.readLineFromSerial (a ++ '\n' :: rest) =
        (a.filter (fun c => c != '\r'), rest)) ∧
    (∀ (a : List Char) (c : Char) (rest : List Char), '\n' ∉ a → ¬(c = '\n') → ¬(c = '\r') →
      (a.filter (fun x => x != '\r')).length + 1 = Named.MAX_NAME_LEN →
      Named.readLineFromSerial (a ++ c :: rest) =
        (a.filter (fun x => x != '\r') ++ [c], Named.discardToNewline rest)) := by
  refine ⟨?_, ?_, ?_⟩
  · intro input hn hl
    have ht : Named.readLineFromSerial input = ([], []) :=
      Named.readLineGo_timeout input [] hn (by simpa using hl)
    refine ⟨ht, ?_⟩
    intro e uid
    unfold Named.handleAddCommand
    rw [ht]
    rfl
  · intro a rest hn hl
    have hres := Named.readLineGo_newline a [] rest hn (by simpa using hl)
    simpa using hres
  · intro a c rest hn hcn hcr hl
    have hres := Named.readLineGo_cap a [] c rest hn hcn hcr (by simpa using hl)
    simpa using hres

theorem readline_protocol_witness :
    Named.readLineFromSerial (['h', 'i'] ++ '\n' :: ['z']) =
      (['h', 'i'].filter (fun c => c != '\r'), ['z']) ∧
    Named.readLineFromSerial ['h', 'i'] = ([], []) ∧
    Named.handleAddCommand zeroE [1] ['h', 'i'] = (zeroE, false) := by
  have h := readline_protocol
  exact ⟨h.2.1 ['h', 'i'] ['z'] (by decide) (by decide),
    (h.1 ['h', 'i'] (by decide) (by decide)).1,
    (h.1 ['h', 'i'] (by decide) (by decide)).2 zeroE [1]⟩

/-- Claim C10: during a single dwell loop the active identifier buffer is never
modified: any run of dwell iterations leaves currentUID unchanged, and a
successful presence poll only stores the fresh read in the reader state and
resets the removal counter, so the add and remove commands always target the
identifier captured when the present state was entered. -/
theorem dwell_uid_frame :
    (∀ (st : DwellSt) (inps : List DwellInput),
      (dwellRun st inps).currentUID = st.currentUID) ∧
    (∀ (st : DwellSt) (ruid : List Nat),
      (dwellIter st (DwellInput.mk none [] (some ruid))).1.currentUID = st.currentUID ∧
      (dwellIter st (DwellInput.mk none [] (some ruid))).1.readerUID = ruid ∧
      (dwellIter st (DwellInput.mk none [] (some ruid))).1.counter = 0) := by
  refine ⟨fun st inps => dwellRun_uid inps st, ?_⟩
  intro st ruid
  exact ⟨dwellIter_uid st _, rfl, rfl⟩
